import Mathlib

/-!
# Verification of the `agg-ws` market-data aggregator

Shallow embedding of the aggregator's state store, protocol normalizers and
supervisor request handling (from `src/app.rs`, `src/book.rs`, `src/trades.rs`,
`src/gdax.rs`, `src/kraken.rs`, `src/hyperliquid.rs`, `src/client.rs`,
`src/error.rs`), together with proofs settling the frozen claims about it.

Modelling conventions:
* Rust `HashMap` and `BTreeMap` are modelled as association lists with
  per-key insert / remove / modify semantics (the claims only observe maps
  through per-key lookup and whole-map equality, on which the two
  containers agree).
* `rust_decimal::Decimal` is modelled in two ways.  For book state the
  prices and sizes are modelled by their numeric value (`Rat`), matching
  the value-based `Ord`/`Eq` instances `BTreeMap` keys use.  For the
  trade-text and timestamp claims the mantissa/scale representation is
  modelled explicitly (`Dec96`).
* `chrono::DateTime<Utc>` is modelled as an integer count of nanoseconds
  since the Unix epoch, which is exactly the information
  `Utc.timestamp_nanos` / `timestamp_millis_opt` construct it from.
* Async plumbing (locks, channels, sockets) is erased: every supervisor
  operation becomes a pure function on the aggregate state, and the result
  of the network call `Websocket::new` is passed in as a parameter.
-/

/-! ## Association-list maps (model of `HashMap` / `BTreeMap`) -/

/-- Lookup by key; the model of `HashMap::get` / `BTreeMap::get`. -/
def mget {κ α : Type} [DecidableEq κ] (k : κ) : List (κ × α) → Option α
  | [] => none
  | (k', v) :: rest => if k = k' then some v else mget k rest

/-- Insert, overwriting any existing binding of the key; the model of
`HashMap::insert` / `BTreeMap::insert`. -/
def minsert {κ α : Type} [DecidableEq κ] (k : κ) (v : α) : List (κ × α) → List (κ × α)
  | [] => [(k, v)]
  | (k', v') :: rest => if k = k' then (k, v) :: rest else (k', v') :: minsert k v rest

/-- Remove a key; no-op when the key is absent; the model of
`HashMap::remove` / `BTreeMap::remove` (every binding of the key is
dropped; lists built by these operations bind each key once, so this
agrees with the Rust maps). -/
def mremove {κ α : Type} [DecidableEq κ] (k : κ) : List (κ × α) → List (κ × α)
  | [] => []
  | (k', v') :: rest => if k = k' then mremove k rest else (k', v') :: mremove k rest

/-- Apply `f` to the value bound to `k`, if any; the model of
`map.entry(k).and_modify(f)`. -/
def mmodify {κ α : Type} [DecidableEq κ] (k : κ) (f : α → α) : List (κ × α) → List (κ × α)
  | [] => []
  | (k', v') :: rest => if k = k' then (k', f v') :: rest else (k', v') :: mmodify k f rest

/-- Insert every binding of `entries` in order (later bindings win); the
model of `BTreeMap::extend`. -/
def mextend {κ α : Type} [DecidableEq κ] (m : List (κ × α)) (entries : List (κ × α)) :
    List (κ × α) :=
  entries.foldl (fun acc e => minsert e.1 e.2 acc) m

/-! ## Core identifiers (`src/client.rs`, `src/app.rs`, `src/error.rs`) -/

/-- `Exchange` from `client.rs`. -/
inductive Exchange : Type
  | Gdax
  | Kraken
  | Hyperliquid
  deriving DecidableEq, Repr

/-- `ChannelType` from `client.rs`. -/
inductive ChannelType : Type
  | Book
  | Tape
  deriving DecidableEq, Repr

/-- `Channel` from `client.rs`: the composite subscription key. -/
structure Channel : Type where
  exchange : Exchange
  channel : ChannelType
  market : String
  deriving DecidableEq, Repr

/-- `TradeSide` from `app.rs`. -/
inductive TradeSide : Type
  | Buy
  | Sell
  deriving DecidableEq, Repr

/-- `Error` from `error.rs`.  The `Oneshot`, `Tungstenite` and `Serde`
wrapper variants are modelled without their library payloads. -/
inductive Error : Type
  | UnexpectedShutdown
  | SocketDoesNotExist
  | ChannelResponseMismatch
  | ChannelDoesNotExist
  | ChannelAlreadySubscribed
  | Oneshot
  | Tungstenite
  | Serde
  deriving DecidableEq, Repr

/-! ## Canonical trades and tapes (`src/trades.rs`) -/

/-- `Trade` from `trades.rs`: price and size as text, timestamp as
nanoseconds since the epoch. -/
structure Trade : Type where
  price : String
  size : String
  dt : Int
  exchange : Exchange
  deriving DecidableEq, Repr

/-- Model of `VecDeque<Trade>`: the element list plus the allocation
capacity (`VecDeque::with_capacity(100)` allocates capacity exactly 100 on
the Rust toolchains this crate builds with, and the eviction branch in
`insert_trade` keeps the length at or below the capacity, so the capacity
never changes afterwards). -/
structure Tape : Type where
  cap : Nat
  items : List Trade
  deriving DecidableEq, Repr

/-- The body of the closure in `App::insert_trade`: evict the front once
the deque is full, then push at the back. -/
def tapeInsert (tp : Tape) (t : Trade) : Tape :=
  if tp.items.length = tp.cap then
    { tp with items := tp.items.tail ++ [t] }
  else
    { tp with items := tp.items ++ [t] }

/-! ## Book state (`src/book.rs`) -/

/-- `Book` from `book.rs`: bids and asks as price → size maps with
value-compared decimal keys. -/
structure Book : Type where
  bids : List (Rat × Rat)
  asks : List (Rat × Rat)
  deriving DecidableEq, Repr

/-- `Book::new`. -/
def Book.new : Book := { bids := [], asks := [] }

/-! ## Exchange message payloads (book-relevant parts) -/

/-- `gdax::Snapshot`. -/
structure GdaxSnapshot : Type where
  product_id : String
  bids : List (Rat × Rat)
  asks : List (Rat × Rat)
  deriving DecidableEq, Repr

/-- `gdax::L2update`: unified delta, each change `(side, price, size)`. -/
structure L2update : Type where
  product_id : String
  time : Int
  changes : List (TradeSide × Rat × Rat)
  deriving DecidableEq, Repr

/-- `kraken::Level` (the `timestamp` and `update_type` fields are carried
but unused by the book logic). -/
structure KrakenLevel : Type where
  price : Rat
  volume : Rat
  timestamp : Rat
  update_type : Option String
  deriving DecidableEq, Repr

/-- `kraken::BidAsks` (field `as` is reserved in Lean; `asks`/`bids` here
stand for the source's `as`/`bs`). -/
structure BidAsks : Type where
  asks : List KrakenLevel
  bids : List KrakenLevel
  deriving DecidableEq, Repr

/-- `kraken::Snapshot`. -/
structure KrakenSnapshot : Type where
  channel_id : Int
  snapshot : BidAsks
  channel_name : String
  pair : String
  deriving DecidableEq, Repr

/-- `kraken::Asks`. -/
structure KrakenAsks : Type where
  update : List KrakenLevel
  c : Option String
  deriving DecidableEq, Repr

/-- `kraken::Bids`. -/
structure KrakenBids : Type where
  update : List KrakenLevel
  c : Option String
  deriving DecidableEq, Repr

/-- `kraken::L2updateAsk`: single-sided (ask) delta. -/
structure L2updateAsk : Type where
  channel_id : Int
  ask : KrakenAsks
  channel_name : String
  pair : String
  deriving DecidableEq, Repr

/-- `kraken::L2updateBid`: single-sided (bid) delta. -/
structure L2updateBid : Type where
  channel_id : Int
  bid : KrakenBids
  channel_name : String
  pair : String
  deriving DecidableEq, Repr

/-- `kraken::L2updateBoth`: dual-sided delta. -/
structure L2updateBoth : Type where
  channel_id : Int
  ask : KrakenAsks
  bid : KrakenBids
  channel_name : String
  pair : String
  deriving DecidableEq, Repr

/-- `hyperliquid::Level`. -/
structure HLLevel : Type where
  n : Int
  px : Rat
  sz : Rat
  deriving DecidableEq, Repr

/-- `hyperliquid::Levels`. -/
structure HLLevels : Type where
  bids : List HLLevel
  asks : List HLLevel
  deriving DecidableEq, Repr

/-- `hyperliquid::L2Book`. -/
structure L2Book : Type where
  coin : String
  time : Int
  levels : HLLevels
  deriving DecidableEq, Repr

/-! ## Aggregate application state (`src/app.rs` + `src/client.rs`) -/

/-- `Websocket` from `websocket.rs`, reduced to the data the supervisor
state observes: the last-received-frame timestamp (`write` and `killshot`
are live IO handles). -/
structure Websocket : Type where
  last_message : Int
  deriving DecidableEq, Repr

/-- The supervisor-owned state: `App.sockets` together with the `State`
struct's `tapes` and `books` maps (flattened into one record, as the
supervisor is the single owner of all three maps). -/
structure App : Type where
  tapes : List (Channel × Tape)
  books : List (Channel × Book)
  sockets : List (Channel × Websocket)
  deriving DecidableEq, Repr

/-- `App::insert_trade`: `tapes.entry(channel).and_modify(...)` — a no-op
when the channel has no tape entry. -/
def insertTrade (st : App) (channel : Channel) (trade : Trade) : App :=
  { st with tapes := mmodify channel (fun vd => tapeInsert vd trade) st.tapes }

/-- `App::insert_gdax_snapshot`: build a fresh book from the snapshot
levels and replace the channel's book wholesale. -/
def insertGdaxSnapshot (st : App) (channel : Channel) (snapshot : GdaxSnapshot) : App :=
  let book : Book := { bids := mextend [] snapshot.bids, asks := mextend [] snapshot.asks }
  { st with books := minsert channel book st.books }

/-- One iteration of the loop in `App::insert_gdax_l2update`. -/
def applyGdaxChange (books : List (Channel × Book)) (channel : Channel)
    (update : TradeSide × Rat × Rat) : List (Channel × Book) :=
  match update.1 with
  | TradeSide.Buy =>
    if update.2.2 = 0 then
      mmodify channel (fun bt => { bt with bids := mremove update.2.1 bt.bids }) books
    else
      mmodify channel (fun bt => { bt with bids := minsert update.2.1 update.2.2 bt.bids }) books
  | TradeSide.Sell =>
    if update.2.2 = 0 then
      mmodify channel (fun bt => { bt with asks := mremove update.2.1 bt.asks }) books
    else
      mmodify channel (fun bt => { bt with asks := minsert update.2.1 update.2.2 bt.asks }) books

/-- `App::insert_gdax_l2update`. -/
def insertGdaxL2update (st : App) (channel : Channel) (l2update : L2update) : App :=
  { st with books := l2update.changes.foldl (fun bks u => applyGdaxChange bks channel u) st.books }

/-- `App::insert_kraken_snapshot`. -/
def insertKrakenSnapshot (st : App) (channel : Channel) (snapshot : KrakenSnapshot) : App :=
  let book : Book :=
    { bids := mextend [] (snapshot.snapshot.bids.map fun l => (l.price, l.volume))
      asks := mextend [] (snapshot.snapshot.asks.map fun l => (l.price, l.volume)) }
  { st with books := minsert channel book st.books }

/-- One iteration of the ask loop in the Kraken delta handlers. -/
def applyKrakenAsk (books : List (Channel × Book)) (channel : Channel)
    (ask : KrakenLevel) : List (Channel × Book) :=
  if ask.volume = 0 then
    mmodify channel (fun bt => { bt with asks := mremove ask.price bt.asks }) books
  else
    mmodify channel (fun bt => { bt with asks := minsert ask.price ask.volume bt.asks }) books

/-- One iteration of the bid loop in the Kraken delta handlers. -/
def applyKrakenBid (books : List (Channel × Book)) (channel : Channel)
    (bid : KrakenLevel) : List (Channel × Book) :=
  if bid.volume = 0 then
    mmodify channel (fun bt => { bt with bids := mremove bid.price bt.bids }) books
  else
    mmodify channel (fun bt => { bt with bids := minsert bid.price bid.volume bt.bids }) books

/-- `App::insert_kraken_update_ask`. -/
def insertKrakenUpdateAsk (st : App) (channel : Channel) (update : L2updateAsk) : App :=
  { st with books := update.ask.update.foldl (fun bks a => applyKrakenAsk bks channel a) st.books }

/-- `App::insert_kraken_update_bid`. -/
def insertKrakenUpdateBid (st : App) (channel : Channel) (update : L2updateBid) : App :=
  { st with books := update.bid.update.foldl (fun bks b => applyKrakenBid bks channel b) st.books }

/-- `App::insert_kraken_update_both`: apply all bid updates, then all ask
updates. -/
def insertKrakenUpdateBoth (st : App) (channel : Channel) (update : L2updateBoth) : App :=
  let afterBids := update.bid.update.foldl (fun bks b => applyKrakenBid bks channel b) st.books
  { st with
    books := update.ask.update.foldl (fun bks a => applyKrakenAsk bks channel a) afterBids }

/-- `App::insert_hyperliquid_snapshot`. -/
def insertHyperliquidSnapshot (st : App) (channel : Channel) (snapshot : L2Book) : App :=
  let book : Book :=
    { bids := mextend [] (snapshot.levels.bids.map fun l => (l.px, l.sz))
      asks := mextend [] (snapshot.levels.asks.map fun l => (l.px, l.sz)) }
  { st with books := minsert channel book st.books }

/-! ## Supervisor request handling (`src/app.rs`, `handle_client_req`) -/

/-- `ClientReq::Start`.  The outcome of the network call `Websocket::new`
is passed in as `conn` (the supervisor only consults it after the state
setup succeeded).  Returns the new state and the response sent back to the
caller. -/
def startReq (st : App) (channel : Channel) (conn : Except Error Websocket) :
    App × Except Error Unit :=
  match channel.channel with
  | ChannelType.Tape =>
    if (mget channel st.tapes).isNone then
      let st1 := { st with tapes := minsert channel { cap := 100, items := [] } st.tapes }
      match conn with
      | Except.ok ws => ({ st1 with sockets := minsert channel ws st1.sockets }, Except.ok ())
      | Except.error e => (st1, Except.error e)
    else
      (st, Except.error Error.ChannelAlreadySubscribed)
  | ChannelType.Book =>
    if (mget channel st.books).isNone then
      let st1 := { st with books := minsert channel Book.new st.books }
      match conn with
      | Except.ok ws => ({ st1 with sockets := minsert channel ws st1.sockets }, Except.ok ())
      | Except.error e => (st1, Except.error e)
    else
      (st, Except.error Error.ChannelAlreadySubscribed)

/-- `ClientReq::Stop`: remove the socket record if present (sending the
unsubscribe payload and killshot are best-effort IO, invisible in the
supervisor state); fail with `SocketDoesNotExist` otherwise. -/
def stopReq (st : App) (channel : Channel) : App × Except Error Unit :=
  match mget channel st.sockets with
  | some _ => ({ st with sockets := mremove channel st.sockets }, Except.ok ())
  | none => (st, Except.error Error.SocketDoesNotExist)

/-! ## The 96-bit decimal model (`rust_decimal::Decimal`)

A value is a signed integer mantissa scaled by a power of ten.  A valid
`Decimal` has `|m| < 2^96` and `scale ≤ 28`.  `from_str` and `Display`
(`to_string`) are modelled on the plain-digit grammar the exchanges emit
(optional minus sign, digits, optional fractional digits); inputs whose
mantissa or scale exceed the representable range are rejected by the model
(`none`) rather than rounded, so every theorem below stays within the
regime where `rust_decimal` is exact. -/

/-- Mantissa/scale decimal: value `m / 10 ^ scale`. -/
structure Dec96 : Type where
  m : Int
  scale : Nat
  deriving DecidableEq, Repr

/-- The rational value of a decimal. -/
def Dec96.val (d : Dec96) : Rat := (d.m : Rat) / ((10 : Rat) ^ d.scale)

/-- Digit character for `n < 10`. -/
def digitChar (n : Nat) : Char := Char.ofNat (48 + n)

/-- Numeric value of a digit character, if it is one. -/
def charDigit (c : Char) : Option Nat :=
  if 48 ≤ c.toNat ∧ c.toNat ≤ 57 then some (c.toNat - 48) else none

/-- Value of a big-endian digit-character run (empty list reads as 0;
callers enforce nonemptiness). -/
def digitsVal (cs : List Char) : Option Nat :=
  cs.foldl (fun acc c => acc.bind fun a => (charDigit c).map fun d => a * 10 + d) (some 0)

/-- Whether every character of the run is a decimal digit. -/
def allDigits (cs : List Char) : Bool :=
  cs.all fun c => (charDigit c).isSome

/-- Strip one leading minus sign, reporting whether it was present. -/
def splitSign (cs : List Char) : Bool × List Char :=
  match cs with
  | c :: rest => if c = '-' then (true, rest) else (false, c :: rest)
  | [] => (false, [])

/-- Split at the first decimal point: the characters before it, and
(when a point was present) the characters after it. -/
def splitDotChars : List Char → List Char × Option (List Char)
  | [] => ([], none)
  | c :: rest =>
    if c = '.' then ([], some rest)
    else
      let sd := splitDotChars rest
      (c :: sd.1, sd.2)

/-- Model of `Decimal::from_str` on the exchange wire grammar
`-?d+(.d+)?`; inputs with mantissa at or above `2^96` or more than 28
fractional digits are rejected rather than rounded. -/
def parseDec96 (s : String) : Option Dec96 :=
  let sg := splitSign s.data
  let sd := splitDotChars sg.2
  let fp := sd.2.getD []
  if sd.1 ≠ [] ∧ sd.2 ≠ some [] ∧ allDigits sd.1 ∧ allDigits fp ∧ fp.length ≤ 28 then
    (digitsVal (sd.1 ++ fp)).bind fun n =>
      if n < 2 ^ 96 then
        some { m := if sg.1 then -(n : Int) else (n : Int), scale := fp.length }
      else
        none
  else
    none

/-- Fuelled digit extraction (structural in the fuel, so the kernel can
evaluate it on closed inputs). -/
def natDigitsRevGo : Nat → Nat → List Nat
  | 0, _ => []
  | _ + 1, 0 => []
  | fuel + 1, n + 1 => ((n + 1) % 10) :: natDigitsRevGo fuel ((n + 1) / 10)

/-- Little-endian digits of a natural number (`[]` for 0). -/
def natDigitsRev (n : Nat) : List Nat := natDigitsRevGo n n

/-- Pad a digit list with leading zeros up to length `k`. -/
def padLeftZeros (l : List Nat) (k : Nat) : List Nat :=
  List.replicate (k - l.length) 0 ++ l

/-- The value of a big-endian digit list. -/
def bigVal (l : List Nat) : Nat :=
  l.foldl (fun a d => a * 10 + d) 0

/-- The big-endian digit run of a decimal's mantissa magnitude, padded
with leading zeros to at least `scale + 1` digits. -/
def decPaddedDigits (d : Dec96) : List Nat :=
  padLeftZeros ((natDigitsRev d.m.natAbs).reverse) (d.scale + 1)

/-- Model of `Decimal`'s `Display` (`to_string`): the mantissa digits with
a decimal point inserted `scale` places from the right, preserving the
scale (so trailing zeros survive). -/
def dec96ToString (d : Dec96) : String :=
  String.mk ((if d.m < 0 then ['-'] else [])
    ++ ((decPaddedDigits d).take ((decPaddedDigits d).length - d.scale)).map digitChar
    ++ (if d.scale = 0 then [] else
        '.' :: ((decPaddedDigits d).drop ((decPaddedDigits d).length - d.scale)).map digitChar))

/-- `t.time * dec!(1000000000)` from `TryFrom<WsTrade> for Trade`:
`rust_decimal` multiplication is exact while the product mantissa fits in
96 bits (the rounding regime beyond that is outside this model). -/
def dec96MulNanos (d : Dec96) : Option Dec96 :=
  if (d.m * 1000000000).natAbs < 2 ^ 96 then
    some { m := d.m * 1000000000, scale := d.scale }
  else
    none

/-- Model of `ToPrimitive::to_i64` on a decimal: truncate toward zero,
`none` when out of the `i64` range. -/
def dec96TruncToI64 (d : Dec96) : Option Int :=
  let q := d.m.tdiv ((10 : Int) ^ d.scale)
  if -(2 ^ 63) ≤ q ∧ q < 2 ^ 63 then some q else none

/-! ## Trade-bearing exchange payloads and `TryFrom` conversions
(`src/gdax.rs`, `src/kraken.rs`, `src/hyperliquid.rs`, `src/trades.rs`) -/

/-- `gdax::Ticker` (`price` and `size` are wire strings; `time` is the
`DateTime<Utc>` chrono parsed from the ISO-8601 wire string, modelled by
its nanosecond timestamp). -/
structure Ticker : Type where
  sequence : Nat
  product_id : String
  price : String
  side : TradeSide
  time : Int
  size : String
  deriving DecidableEq, Repr

/-- `TryFrom<Ticker> for Trade` (always succeeds in the source). -/
def tradeOfTicker (t : Ticker) : Trade :=
  { price := t.price, size := t.size, dt := t.time, exchange := Exchange.Gdax }

/-- `kraken::WsTrade` after serde decoding (`price`, `volume`, `time` are
`Decimal`). -/
structure WsTrade : Type where
  price : Dec96
  volume : Dec96
  time : Dec96
  side : String
  order_type : String
  misc : String
  deriving DecidableEq, Repr

/-- A Kraken trade as it appears on the wire, before serde turns the
decimal texts into `Decimal` values. -/
structure RawWsTrade : Type where
  price : String
  volume : String
  time : String
  side : String
  order_type : String
  misc : String
  deriving DecidableEq, Repr

/-- The serde step for one Kraken wire trade: parse the three decimal
fields. -/
def parseWsTrade (r : RawWsTrade) : Option WsTrade :=
  (parseDec96 r.price).bind fun p =>
    (parseDec96 r.volume).bind fun v =>
      (parseDec96 r.time).map fun t =>
        { price := p, volume := v, time := t,
          side := r.side, order_type := r.order_type, misc := r.misc }

/-- `TryFrom<WsTrade> for Trade`: decimal texts via `to_string`, timestamp
via `Utc.timestamp_nanos((time * 1e9).to_i64().unwrap())`; `none` models
the `unwrap` panic. -/
def tradeOfWsTrade (t : WsTrade) : Option Trade :=
  (dec96MulNanos t.time).bind fun p =>
    (dec96TruncToI64 p).map fun n =>
      { price := dec96ToString t.price, size := dec96ToString t.volume,
        dt := n, exchange := Exchange.Kraken }

/-- `hyperliquid::Trade` (`px`/`sz` are wire strings, `time` is epoch
milliseconds). -/
structure HLTrade : Type where
  coin : String
  side : String
  px : String
  sz : String
  time : Int
  hash : String
  deriving DecidableEq, Repr

/-- Conservative bound (in milliseconds) inside chrono's representable
`DateTime` range; `timestamp_millis_opt` is `Single` for every timestamp
with this magnitude. -/
def hlMillisRange : Int := 8000000000000000

/-- `TryFrom<HLTrade> for Trade`:
`Utc.timestamp_millis_opt(time).unwrap()`; `none` models the `unwrap`
panic outside chrono's range. -/
def tradeOfHLTrade (t : HLTrade) : Option Trade :=
  if -hlMillisRange ≤ t.time ∧ t.time ≤ hlMillisRange then
    some { price := t.px, size := t.sz, dt := t.time * 1000000,
           exchange := Exchange.Hyperliquid }
  else
    none

/-! ## Decoded response envelopes and their handlers -/

/-- Outcome of handling one decoded response: clean, a recoverable typed
error returned to the event loop, or a panic (`unwrap` failure) that kills
the supervisor. -/
inductive WsResult : Type
  | ok
  | err (e : Error)
  | fatal
  deriving DecidableEq, Repr

/-- `gdax::GdaxChannel`. -/
structure GdaxChannel : Type where
  name : String
  product_ids : List String
  deriving DecidableEq, Repr

/-- `gdax::Subscriptions`. -/
structure Subscriptions : Type where
  channels : List GdaxChannel
  deriving DecidableEq, Repr

/-- `gdax::Heartbeat`. -/
structure Heartbeat : Type where
  time : Int
  product_id : String
  sequence : Int
  last_trade_id : Int
  deriving DecidableEq, Repr

/-- `gdax::Response`. -/
inductive GdaxResponse : Type
  | subscriptions (s : Subscriptions)
  | heartbeat (h : Heartbeat)
  | ticker (t : Ticker)
  | snapshot (s : GdaxSnapshot)
  | l2update (u : L2update)
  deriving DecidableEq, Repr

/-- `App::handle_ws_response_gdax`. -/
def handleWsResponseGdax (st : App) (channel : Channel) :
    GdaxResponse → App × WsResult
  | GdaxResponse.heartbeat _ => (st, WsResult.ok)
  | GdaxResponse.subscriptions _ => (st, WsResult.ok)
  | GdaxResponse.ticker t =>
    if channel.channel = ChannelType.Tape then
      (insertTrade st channel (tradeOfTicker t), WsResult.ok)
    else
      (st, WsResult.err Error.ChannelResponseMismatch)
  | GdaxResponse.snapshot s => (insertGdaxSnapshot st channel s, WsResult.ok)
  | GdaxResponse.l2update u => (insertGdaxL2update st channel u, WsResult.ok)

/-- `kraken::SystemStatus`. -/
structure SystemStatus : Type where
  connection_id : Option Int
  status : String
  version : String
  deriving DecidableEq, Repr

/-- `kraken::SubscriptionStatus` (subscription payload reduced to its
name). -/
structure SubscriptionStatus : Type where
  channel_name : String
  pair : Option String
  status : String
  subscription_name : String
  deriving DecidableEq, Repr

/-- `kraken::TaggedResp`. -/
inductive KrakenTagged : Type
  | heartbeat
  | systemStatus (s : SystemStatus)
  | subscriptionStatus (s : SubscriptionStatus)
  deriving DecidableEq, Repr

/-- `kraken::Trade` (the trade-list envelope). -/
structure KrakenTradeMsg : Type where
  channel_id : Int
  trades : List WsTrade
  channel_name : String
  pair : String
  deriving DecidableEq, Repr

/-- `kraken::Response`. -/
inductive KrakenResponse : Type
  | taggedResp (t : KrakenTagged)
  | trade (t : KrakenTradeMsg)
  | snapshot (s : KrakenSnapshot)
  | l2updateAsk (u : L2updateAsk)
  | l2updateBid (u : L2updateBid)
  | l2updateBoth (u : L2updateBoth)
  deriving DecidableEq, Repr

/-- The conversion-and-insert loop of the Kraken trade arm: each trade is
converted (`try_into` with the embedded `unwrap`) and inserted in order;
a conversion panic aborts at that point. -/
def insertKrakenTrades (st : App) (channel : Channel) :
    List WsTrade → App × WsResult
  | [] => (st, WsResult.ok)
  | t :: ts =>
    match tradeOfWsTrade t with
    | none => (st, WsResult.fatal)
    | some tr => insertKrakenTrades (insertTrade st channel tr) channel ts

/-- `App::handle_ws_response_kraken`. -/
def handleWsResponseKraken (st : App) (channel : Channel) :
    KrakenResponse → App × WsResult
  | KrakenResponse.trade t =>
    if channel.channel = ChannelType.Tape then
      insertKrakenTrades st channel t.trades
    else
      (st, WsResult.err Error.ChannelResponseMismatch)
  | KrakenResponse.snapshot s => (insertKrakenSnapshot st channel s, WsResult.ok)
  | KrakenResponse.l2updateAsk u => (insertKrakenUpdateAsk st channel u, WsResult.ok)
  | KrakenResponse.l2updateBid u => (insertKrakenUpdateBid st channel u, WsResult.ok)
  | KrakenResponse.l2updateBoth u => (insertKrakenUpdateBoth st channel u, WsResult.ok)
  | KrakenResponse.taggedResp _ => (st, WsResult.ok)

/-- `hyperliquid::Subscription`. -/
structure HLSubscription : Type where
  type : String
  coin : String
  deriving DecidableEq, Repr

/-- `hyperliquid::Subscribe`. -/
structure HLSubscribe : Type where
  method : String
  subscription : HLSubscription
  deriving DecidableEq, Repr

/-- `hyperliquid::Response`. -/
inductive HLResponse : Type
  | subscriptionResponse (s : HLSubscribe)
  | trades (ts : List HLTrade)
  | l2book (b : L2Book)
  deriving DecidableEq, Repr

/-- The conversion-and-insert loop of the Hyperliquid trades arm. -/
def insertHLTrades (st : App) (channel : Channel) :
    List HLTrade → App × WsResult
  | [] => (st, WsResult.ok)
  | t :: ts =>
    match tradeOfHLTrade t with
    | none => (st, WsResult.fatal)
    | some tr => insertHLTrades (insertTrade st channel tr) channel ts

/-- `App::handle_ws_response_hyperliquid`. -/
def handleWsResponseHyperliquid (st : App) (channel : Channel) :
    HLResponse → App × WsResult
  | HLResponse.trades ts =>
    if channel.channel = ChannelType.Tape then
      insertHLTrades st channel ts
    else
      (st, WsResult.err Error.ChannelResponseMismatch)
  | HLResponse.l2book b => (insertHyperliquidSnapshot st channel b, WsResult.ok)
  | HLResponse.subscriptionResponse _ => (st, WsResult.ok)

/-! ## Concrete example values (used by witnesses and counterexamples) -/

/-- An example Tape channel. -/
def chTapeEx : Channel :=
  { exchange := Exchange.Gdax, channel := ChannelType.Tape, market := "BTC-USD" }

/-- An example Book channel. -/
def chBookEx : Channel :=
  { exchange := Exchange.Gdax, channel := ChannelType.Book, market := "BTC-USD" }

/-- The empty application state. -/
def appEmpty : App := { tapes := [], books := [], sockets := [] }

/-- An example socket record. -/
def wsEx : Websocket := { last_message := 0 }

/-- 101 sequential example trades. -/
def tradesEx : List Trade :=
  (List.range 101).map fun i =>
    { price := "1", size := "1", dt := (i : Int), exchange := Exchange.Gdax }

/-- An example book holding one bid level. -/
def bookEx : Book := { bids := [((1 : Rat), (2 : Rat))], asks := [] }

/-- An example state holding `bookEx` under the Book channel. -/
def stBookEx : App := { tapes := [], books := [(chBookEx, bookEx)], sockets := [] }

/-- An example state holding one live socket record. -/
def stSockEx : App := { tapes := [], books := [], sockets := [(chTapeEx, wsEx)] }

/-- An example GDAX ticker. -/
def tickerEx : Ticker :=
  { sequence := 1, product_id := "BTC-USD", price := "100.0", side := TradeSide.Buy,
    time := 0, size := "1.0" }

/-- An example decoded Kraken trade (price text `"0.100"`, volume `"2.0"`,
time `1685895944.62050` s). -/
def wstEx : WsTrade :=
  { price := { m := 100, scale := 3 }, volume := { m := 20, scale := 1 },
    time := { m := 168589594462050, scale := 5 },
    side := "b", order_type := "l", misc := "" }

/-- The canonical trade `wstEx` converts to. -/
def trKrakenEx : Trade :=
  { price := "0.100", size := "2.0", dt := 1685895944620500000,
    exchange := Exchange.Kraken }

/-! ## Normalized book operations and invariant predicates -/

/-- A normalized book operation: one of the seven snapshot/delta shapes
the three exchanges can deliver to a channel's book. -/
inductive BookOp : Type
  | gdaxSnapshot (s : GdaxSnapshot)
  | gdaxDelta (u : L2update)
  | krakenSnapshot (s : KrakenSnapshot)
  | krakenAsk (u : L2updateAsk)
  | krakenBid (u : L2updateBid)
  | krakenBoth (u : L2updateBoth)
  | hlSnapshot (b : L2Book)

/-- Dispatch a normalized book operation to the corresponding `App`
insert function from `book.rs`. -/
def applyBookOp (st : App) (channel : Channel) : BookOp → App
  | BookOp.gdaxSnapshot s => insertGdaxSnapshot st channel s
  | BookOp.gdaxDelta u => insertGdaxL2update st channel u
  | BookOp.krakenSnapshot s => insertKrakenSnapshot st channel s
  | BookOp.krakenAsk u => insertKrakenUpdateAsk st channel u
  | BookOp.krakenBid u => insertKrakenUpdateBid st channel u
  | BookOp.krakenBoth u => insertKrakenUpdateBoth st channel u
  | BookOp.hlSnapshot b => insertHyperliquidSnapshot st channel b

/-- No binding of the price map carries size zero. -/
def valsNonzero (l : List (Rat × Rat)) : Prop :=
  ∀ e ∈ l, e.2 ≠ 0

/-- Neither side of the book stores a zero-size level. -/
def bookNonzero (b : Book) : Prop :=
  valsNonzero b.bids ∧ valsNonzero b.asks

/-- Every stored book satisfies the zero-size invariant. -/
def booksNonzero (bks : List (Channel × Book)) : Prop :=
  ∀ e ∈ bks, bookNonzero e.2

/-- The input levels of a snapshot operation are all nonzero (delta
operations impose no condition). -/
def opLevelsNonzero : BookOp → Prop
  | BookOp.gdaxSnapshot s => (∀ e ∈ s.bids, e.2 ≠ 0) ∧ (∀ e ∈ s.asks, e.2 ≠ 0)
  | BookOp.krakenSnapshot s =>
    (∀ l ∈ s.snapshot.bids, l.volume ≠ 0) ∧ (∀ l ∈ s.snapshot.asks, l.volume ≠ 0)
  | BookOp.hlSnapshot b =>
    (∀ l ∈ b.levels.bids, l.sz ≠ 0) ∧ (∀ l ∈ b.levels.asks, l.sz ≠ 0)
  | _ => True

/-- Specification of one delta element `(price, size)` against a price
map: size zero removes the level (no-op when absent), nonzero size
inserts or overwrites it, and every other price is untouched. -/
def deltaSpec (old new : List (Rat × Rat)) (p s : Rat) : Prop :=
  ∀ q : Rat, mget q new = if q = p then (if s = 0 then none else some s) else mget q old

/-! ## Association-list map lemmas -/

theorem mget_minsert_self {κ α : Type} [DecidableEq κ] (k : κ) (v : α) (l : List (κ × α)) :
    mget k (minsert k v l) = some v := by
  induction l with
  | nil => simp [mget, minsert]
  | cons e rest ih =>
    obtain ⟨k', v'⟩ := e
    by_cases h : k = k' <;> simp [mget, minsert, h, ih]

theorem mget_minsert_ne {κ α : Type} [DecidableEq κ] {k q : κ} (v : α) (l : List (κ × α))
    (h : q ≠ k) : mget q (minsert k v l) = mget q l := by
  induction l with
  | nil => simp [mget, minsert, h]
  | cons e rest ih =>
    obtain ⟨k', v'⟩ := e
    by_cases hk : k = k'
    · subst hk
      simp [mget, minsert, h]
    · by_cases hq : q = k' <;> simp [mget, minsert, hk, hq, ih]

theorem mget_mremove_self {κ α : Type} [DecidableEq κ] (k : κ) (l : List (κ × α)) :
    mget k (mremove k l) = none := by
  induction l with
  | nil => simp [mget, mremove]
  | cons e rest ih =>
    obtain ⟨k', v'⟩ := e
    by_cases h : k = k'
    · subst h
      simp [mremove, ih]
    · simp [mget, mremove, h, ih]

theorem mget_mremove_ne {κ α : Type} [DecidableEq κ] {k q : κ} (l : List (κ × α))
    (h : q ≠ k) : mget q (mremove k l) = mget q l := by
  induction l with
  | nil => simp [mremove]
  | cons e rest ih =>
    obtain ⟨k', v'⟩ := e
    by_cases hk : k = k'
    · subst hk
      simp [mget, mremove, h, ih]
    · by_cases hq : q = k' <;> simp [mget, mremove, hk, hq, ih]

theorem mget_mmodify_self {κ α : Type} [DecidableEq κ] (k : κ) (f : α → α) (l : List (κ × α)) :
    mget k (mmodify k f l) = (mget k l).map f := by
  induction l with
  | nil => simp [mget, mmodify]
  | cons e rest ih =>
    obtain ⟨k', v'⟩ := e
    by_cases h : k = k' <;> simp [mget, mmodify, h, ih]

theorem mget_mmodify_ne {κ α : Type} [DecidableEq κ] {k q : κ} (f : α → α) (l : List (κ × α))
    (h : q ≠ k) : mget q (mmodify k f l) = mget q l := by
  induction l with
  | nil => simp [mmodify]
  | cons e rest ih =>
    obtain ⟨k', v'⟩ := e
    by_cases hk : k = k'
    · subst hk
      simp [mget, mmodify, h]
    · by_cases hq : q = k' <;> simp [mget, mmodify, hk, hq, ih]

/-! ## Zero-size-invariant preservation lemmas -/

theorem valsNonzero_minsert {k v : Rat} {l : List (Rat × Rat)}
    (hv : v ≠ 0) (hl : valsNonzero l) : valsNonzero (minsert k v l) := by
  induction l with
  | nil =>
    intro e he
    simp [minsert] at he
    simp [he, hv]
  | cons e rest ih =>
    obtain ⟨k', v'⟩ := e
    have hrest : valsNonzero rest := fun e he => hl e (List.mem_cons_of_mem _ he)
    by_cases h : k = k'
    · intro e he
      simp [minsert, h] at he
      rcases he with he | he
      · simp [he, hv]
      · exact hl e (List.mem_cons_of_mem _ he)
    · intro e he
      simp only [minsert, if_neg h] at he
      rcases List.mem_cons.mp he with he | he
      · exact hl e (by simp [he])
      · exact ih hrest e he

theorem valsNonzero_mremove {k : Rat} {l : List (Rat × Rat)}
    (hl : valsNonzero l) : valsNonzero (mremove k l) := by
  induction l with
  | nil => intro e he; simp [mremove] at he
  | cons e rest ih =>
    obtain ⟨k', v'⟩ := e
    have hrest : valsNonzero rest := fun e he => hl e (List.mem_cons_of_mem _ he)
    by_cases h : k = k'
    · simpa [mremove, h] using ih hrest
    · intro e he
      simp only [mremove, if_neg h] at he
      rcases List.mem_cons.mp he with he | he
      · exact hl e (by simp [he])
      · exact ih hrest e he

theorem valsNonzero_mextend {m : List (Rat × Rat)} {entries : List (Rat × Rat)}
    (hm : valsNonzero m) (he : ∀ e ∈ entries, e.2 ≠ 0) :
    valsNonzero (mextend m entries) := by
  induction entries generalizing m with
  | nil => simpa [mextend] using hm
  | cons e rest ih =>
    have h1 : valsNonzero (minsert e.1 e.2 m) :=
      valsNonzero_minsert (he e (by simp)) hm
    have h2 : ∀ e' ∈ rest, e'.2 ≠ 0 := fun e' h => he e' (List.mem_cons_of_mem _ h)
    simpa [mextend] using ih h1 h2

theorem booksNonzero_minsert {ch : Channel} {b : Book} {bks : List (Channel × Book)}
    (hb : bookNonzero b) (hbks : booksNonzero bks) :
    booksNonzero (minsert ch b bks) := by
  induction bks with
  | nil =>
    intro e he
    simp [minsert] at he
    simp [he, hb]
  | cons e rest ih =>
    obtain ⟨ch', b'⟩ := e
    have hrest : booksNonzero rest := fun e he => hbks e (List.mem_cons_of_mem _ he)
    by_cases h : ch = ch'
    · intro e he
      simp [minsert, h] at he
      rcases he with he | he
      · simp [he, hb]
      · exact hbks e (List.mem_cons_of_mem _ he)
    · intro e he
      simp only [minsert, if_neg h] at he
      rcases List.mem_cons.mp he with he | he
      · exact hbks e (by simp [he])
      · exact ih hrest e he

theorem booksNonzero_mmodify {ch : Channel} {f : Book → Book} {bks : List (Channel × Book)}
    (hf : ∀ b, bookNonzero b → bookNonzero (f b)) (hbks : booksNonzero bks) :
    booksNonzero (mmodify ch f bks) := by
  induction bks with
  | nil => intro e he; simp [mmodify] at he
  | cons e rest ih =>
    obtain ⟨ch', b'⟩ := e
    have hrest : booksNonzero rest := fun e he => hbks e (List.mem_cons_of_mem _ he)
    by_cases h : ch = ch'
    · intro e he
      simp only [mmodify, if_pos h] at he
      rcases List.mem_cons.mp he with he | he
      · subst he
        exact hf b' (hbks (ch', b') (by simp))
      · exact hbks e (List.mem_cons_of_mem _ he)
    · intro e he
      simp only [mmodify, if_neg h] at he
      rcases List.mem_cons.mp he with he | he
      · exact hbks e (by simp [he])
      · exact ih hrest e he

theorem foldl_preserve {α β : Type} {P : α → Prop} {f : α → β → α}
    (hf : ∀ a b, P a → P (f a b)) :
    ∀ (l : List β) (a : α), P a → P (l.foldl f a) := by
  intro l
  induction l with
  | nil => intro a ha; simpa using ha
  | cons b rest ih => intro a ha; rw [List.foldl_cons]; exact ih (f a b) (hf a b ha)

theorem booksNonzero_applyGdaxChange {bks : List (Channel × Book)} (ch : Channel)
    (u : TradeSide × Rat × Rat) (h : booksNonzero bks) :
    booksNonzero (applyGdaxChange bks ch u) := by
  obtain ⟨side, p, s⟩ := u
  cases side <;> by_cases hs : s = 0 <;>
    simp only [applyGdaxChange, hs, if_pos, if_true, if_neg, if_false, reduceIte] <;>
    apply booksNonzero_mmodify _ h <;>
    intro b hb
  · exact ⟨valsNonzero_mremove hb.1, hb.2⟩
  · exact ⟨valsNonzero_minsert hs hb.1, hb.2⟩
  · exact ⟨hb.1, valsNonzero_mremove hb.2⟩
  · exact ⟨hb.1, valsNonzero_minsert hs hb.2⟩

theorem booksNonzero_applyKrakenAsk {bks : List (Channel × Book)} (ch : Channel)
    (a : KrakenLevel) (h : booksNonzero bks) :
    booksNonzero (applyKrakenAsk bks ch a) := by
  by_cases hs : a.volume = 0 <;>
    simp only [applyKrakenAsk, hs, if_true, if_false, reduceIte] <;>
    apply booksNonzero_mmodify _ h <;>
    intro b hb
  · exact ⟨hb.1, valsNonzero_mremove hb.2⟩
  · exact ⟨hb.1, valsNonzero_minsert hs hb.2⟩

theorem booksNonzero_applyKrakenBid {bks : List (Channel × Book)} (ch : Channel)
    (a : KrakenLevel) (h : booksNonzero bks) :
    booksNonzero (applyKrakenBid bks ch a) := by
  by_cases hs : a.volume = 0 <;>
    simp only [applyKrakenBid, hs, if_true, if_false, reduceIte] <;>
    apply booksNonzero_mmodify _ h <;>
    intro b hb
  · exact ⟨valsNonzero_mremove hb.1, hb.2⟩
  · exact ⟨valsNonzero_minsert hs hb.1, hb.2⟩

theorem booksNonzero_applyBookOp {st : App} (ch : Channel) (op : BookOp)
    (h : booksNonzero st.books) (hop : opLevelsNonzero op) :
    booksNonzero (applyBookOp st ch op).books := by
  cases op with
  | gdaxSnapshot s =>
    apply booksNonzero_minsert _ h
    exact ⟨valsNonzero_mextend (by intro e he; simp at he) hop.1,
           valsNonzero_mextend (by intro e he; simp at he) hop.2⟩
  | gdaxDelta u =>
    exact foldl_preserve (fun bks c hb => booksNonzero_applyGdaxChange ch c hb) u.changes
      st.books h
  | krakenSnapshot s =>
    apply booksNonzero_minsert _ h
    constructor
    · apply valsNonzero_mextend (by intro e he; simp at he)
      intro e he
      simp only [List.mem_map] at he
      obtain ⟨l, hl, rfl⟩ := he
      exact hop.1 l hl
    · apply valsNonzero_mextend (by intro e he; simp at he)
      intro e he
      simp only [List.mem_map] at he
      obtain ⟨l, hl, rfl⟩ := he
      exact hop.2 l hl
  | krakenAsk u =>
    exact foldl_preserve (fun bks a hb => booksNonzero_applyKrakenAsk ch a hb) u.ask.update
      st.books h
  | krakenBid u =>
    exact foldl_preserve (fun bks a hb => booksNonzero_applyKrakenBid ch a hb) u.bid.update
      st.books h
  | krakenBoth u =>
    have h1 := foldl_preserve (fun bks a hb => booksNonzero_applyKrakenBid ch a hb)
      u.bid.update st.books h
    exact foldl_preserve (fun bks a hb => booksNonzero_applyKrakenAsk ch a hb) u.ask.update
      _ h1
  | hlSnapshot b =>
    apply booksNonzero_minsert _ h
    constructor
    · apply valsNonzero_mextend (by intro e he; simp at he)
      intro e he
      simp only [List.mem_map] at he
      obtain ⟨l, hl, rfl⟩ := he
      exact hop.1 l hl
    · apply valsNonzero_mextend (by intro e he; simp at he)
      intro e he
      simp only [List.mem_map] at he
      obtain ⟨l, hl, rfl⟩ := he
      exact hop.2 l hl

/-! ## Tape lemmas -/

theorem tapeInsert_cap (tp : Tape) (t : Trade) : (tapeInsert tp t).cap = tp.cap := by
  unfold tapeInsert
  split <;> rfl

theorem tapeInsert_len_le (tp : Tape) (t : Trade) (h0 : 0 < tp.cap)
    (h : tp.items.length ≤ tp.cap) : (tapeInsert tp t).items.length ≤ tp.cap := by
  unfold tapeInsert
  by_cases hfull : tp.items.length = tp.cap
  · rw [if_pos hfull]
    cases hitems : tp.items with
    | nil => rw [hitems] at hfull; simp at hfull; omega
    | cons a b =>
      have hfull' : b.length + 1 = tp.cap := by
        rw [hitems] at hfull
        simpa using hfull
      simp only [List.tail_cons, List.length_append, List.length_cons, List.length_nil]
      omega
  · rw [if_neg hfull]
    simp
    omega

theorem tapeFold_cap (ts : List Trade) : ∀ tp : Tape, (ts.foldl tapeInsert tp).cap = tp.cap := by
  induction ts with
  | nil => intro tp; rfl
  | cons t ts ih => intro tp; rw [List.foldl_cons, ih, tapeInsert_cap]

theorem tapeFold_len_le (ts : List Trade) : ∀ tp : Tape, 0 < tp.cap →
    tp.items.length ≤ tp.cap → (ts.foldl tapeInsert tp).items.length ≤ tp.cap := by
  induction ts with
  | nil => intro tp _ h; simpa using h
  | cons t ts ih =>
    intro tp h0 h
    rw [List.foldl_cons]
    have := ih (tapeInsert tp t) (by rw [tapeInsert_cap]; exact h0)
      (by rw [tapeInsert_cap]; exact tapeInsert_len_le tp t h0 h)
    rwa [tapeInsert_cap] at this

theorem tapeFold_items (ts : List Trade) : ∀ tp : Tape, 0 < tp.cap →
    tp.items.length ≤ tp.cap →
    (ts.foldl tapeInsert tp).items
      = (tp.items ++ ts).drop (tp.items.length + ts.length - tp.cap) := by
  induction ts with
  | nil =>
    intro tp h0 hle
    simp [Nat.sub_eq_zero_of_le hle]
  | cons t ts ih =>
    intro tp h0 hle
    rw [List.foldl_cons]
    by_cases hfull : tp.items.length = tp.cap
    · obtain ⟨hd, tl, hitems⟩ : ∃ hd tl, tp.items = hd :: tl := by
        cases hitems : tp.items with
        | nil => rw [hitems] at hfull; simp at hfull; omega
        | cons a b => exact ⟨a, b, rfl⟩
      have hcap : (tapeInsert tp t).cap = tp.cap := tapeInsert_cap tp t
      have hins : (tapeInsert tp t).items = tl ++ [t] := by
        unfold tapeInsert
        rw [if_pos hfull, hitems]
        rfl
      have htl : tl.length + 1 = tp.cap := by
        rw [hitems] at hfull
        simpa using hfull
      have hlen : (tapeInsert tp t).items.length = tp.cap := by
        rw [hins]
        simpa using htl
      have hrec := ih (tapeInsert tp t) (by rw [hcap]; exact h0)
        (by rw [hlen, hcap])
      rw [hrec, hlen, hcap, hins, Nat.add_sub_cancel_left, hitems]
      have hidx : (hd :: tl).length + (t :: ts).length - tp.cap = ts.length + 1 := by
        simp at htl ⊢
        omega
      rw [hidx]
      simp
    · have hlt : tp.items.length < tp.cap := Nat.lt_of_le_of_ne hle hfull
      have hins : (tapeInsert tp t).items = tp.items ++ [t] := by
        unfold tapeInsert
        rw [if_neg hfull]
      have hcap : (tapeInsert tp t).cap = tp.cap := tapeInsert_cap tp t
      have hlen : (tapeInsert tp t).items.length = tp.items.length + 1 := by
        rw [hins]
        simp
      have hrec := ih (tapeInsert tp t) (by rw [hcap]; exact h0)
        (by rw [hlen, hcap]; omega)
      rw [hrec, hlen, hcap, hins]
      have hidx : tp.items.length + 1 + ts.length - tp.cap
          = tp.items.length + (t :: ts).length - tp.cap := by
        simp
        omega
      rw [hidx]
      simp

theorem mget_insertTrades (ts : List Trade) : ∀ (st : App) (ch : Channel),
    mget ch (ts.foldl (fun s t => insertTrade s ch t) st).tapes
      = (mget ch st.tapes).map (fun tp => ts.foldl tapeInsert tp) := by
  induction ts with
  | nil =>
    intro st ch
    simp
  | cons t ts ih =>
    intro st ch
    rw [List.foldl_cons, ih]
    simp only [insertTrade, mget_mmodify_self]
    cases mget ch st.tapes <;> simp

theorem startReq_tapes_fresh (st : App) (ch : Channel) (conn : Except Error Websocket)
    (hk : ch.channel = ChannelType.Tape) (hf : mget ch st.tapes = none) :
    (startReq st ch conn).1.tapes = minsert ch { cap := 100, items := [] } st.tapes := by
  unfold startReq
  rw [hk]
  simp only [hf, Option.isNone_none, if_true, reduceIte]
  cases conn <;> rfl

theorem startReq_dup_tape (st : App) (ch : Channel) (conn : Except Error Websocket)
    (hk : ch.channel = ChannelType.Tape) (tp : Tape) (h : mget ch st.tapes = some tp) :
    startReq st ch conn = (st, Except.error Error.ChannelAlreadySubscribed) := by
  unfold startReq
  rw [hk]
  simp [h]

theorem startReq_dup_book (st : App) (ch : Channel) (conn : Except Error Websocket)
    (hk : ch.channel = ChannelType.Book) (b : Book) (h : mget ch st.books = some b) :
    startReq st ch conn = (st, Except.error Error.ChannelAlreadySubscribed) := by
  unfold startReq
  rw [hk]
  simp [h]

/-! ## Claim C1 — book zero-size invariant -/

/-- C1 as stated is false on the code: `insert_gdax_snapshot` copies the
snapshot levels verbatim, so applying a snapshot whose input includes a
zero-size bid at price 1 to a freshly started Book channel stores that
level with size exactly zero. -/
theorem C1_counterexample :
    (mget { exchange := Exchange.Gdax, channel := ChannelType.Book, market := "BTC-USD" }
        (insertGdaxSnapshot
          { tapes := [],
            books :=
              [({ exchange := Exchange.Gdax, channel := ChannelType.Book,
                  market := "BTC-USD" }, Book.new)],
            sockets := [] }
          { exchange := Exchange.Gdax, channel := ChannelType.Book, market := "BTC-USD" }
          { product_id := "BTC-USD", bids := [((1 : Rat), (0 : Rat))], asks := [] }).books).map
      (fun b => mget (1 : Rat) b.bids) = some (some 0) := by
  rfl

/-- C1 (amended): the zero-size invariant is maintained by every delta
operation unconditionally, and by snapshots whose input levels are all
nonzero; hence over any sequence of normalized book operations whose
snapshot inputs are zero-free, starting from zero-free books, no zero-size
level is ever stored on either side of any channel's book.  (Snapshots
copy their input verbatim, so a zero-size snapshot level is stored as-is —
see the counterexample.) -/
theorem C1_book_zero_invariant (st : App) (ch : Channel) (ops : List BookOp)
    (h0 : booksNonzero st.books) (hops : ∀ op ∈ ops, opLevelsNonzero op) :
    booksNonzero ((ops.foldl (fun s op => applyBookOp s ch op) st).books) := by
  induction ops generalizing st with
  | nil => simpa using h0
  | cons op rest ih =>
    rw [List.foldl_cons]
    exact ih (applyBookOp st ch op)
      (booksNonzero_applyBookOp ch op h0 (hops op (by simp)))
      (fun op' h => hops op' (List.mem_cons_of_mem _ h))

/-- Witness for `C1_book_zero_invariant`: a concrete zero-free snapshot
followed by a zero-size delta (which deletes the level) keeps the books
zero-free. -/
theorem C1_book_zero_invariant_witness :
    booksNonzero
      (([BookOp.gdaxSnapshot
           { product_id := "BTC-USD", bids := [((1 : Rat), (2 : Rat))], asks := [] },
         BookOp.gdaxDelta
           { product_id := "BTC-USD", time := 0,
             changes := [(TradeSide.Buy, (1 : Rat), (0 : Rat))] }].foldl
         (fun s op =>
           applyBookOp s
             { exchange := Exchange.Gdax, channel := ChannelType.Book, market := "BTC-USD" } op)
         { tapes := [], books := [], sockets := [] }).books) := by
  have h := C1_book_zero_invariant
    { tapes := [], books := [], sockets := [] }
    { exchange := Exchange.Gdax, channel := ChannelType.Book, market := "BTC-USD" }
    [BookOp.gdaxSnapshot
       { product_id := "BTC-USD", bids := [((1 : Rat), (2 : Rat))], asks := [] },
     BookOp.gdaxDelta
       { product_id := "BTC-USD", time := 0,
         changes := [(TradeSide.Buy, (1 : Rat), (0 : Rat))] }]
    (by intro e he; simp at he)
    (by
      intro op hop
      simp only [List.mem_cons, List.mem_singleton] at hop
      rcases hop with rfl | hop
      · exact ⟨by intro e he; simp at he; simp [he], by intro e he; simp at he⟩
      · rcases hop with rfl | hop
        · trivial
        · simp at hop)
  exact h

/-! ## Claim C2 — tape boundedness -/

/-- C2: starting a fresh Tape channel creates a capacity-100 tape, and
after inserting 101 sequential trades the tape holds exactly the last 100
in arrival order (the single oldest evicted); moreover no insertion
sequence can ever make the tape hold more than 100 trades. -/
theorem C2_tape_bounded (st : App) (ch : Channel) (conn : Except Error Websocket)
    (hk : ch.channel = ChannelType.Tape) (hf : mget ch st.tapes = none)
    (ts : List Trade) (hlen : ts.length = 101) :
    (mget ch ((ts.foldl (fun s t => insertTrade s ch t) (startReq st ch conn).1)).tapes
        = some { cap := 100, items := ts.drop 1 }
      ∧ (ts.drop 1).length = 100)
    ∧ ∀ ts' : List Trade, ∀ tp : Tape,
        mget ch ((ts'.foldl (fun s t => insertTrade s ch t) (startReq st ch conn).1)).tapes
          = some tp → tp.items.length ≤ 100 := by
  have htapes := startReq_tapes_fresh st ch conn hk hf
  have hstart : mget ch (startReq st ch conn).1.tapes
      = some { cap := 100, items := ([] : List Trade) } := by
    rw [htapes]
    exact mget_minsert_self ch _ st.tapes
  constructor
  · constructor
    · rw [mget_insertTrades, hstart, Option.map_some']
      have h0 : (0 : Nat) < 100 := by norm_num
      have hitems := tapeFold_items ts { cap := 100, items := [] } h0 (by simp)
      have hcap := tapeFold_cap ts { cap := 100, items := [] }
      have : (ts.foldl tapeInsert { cap := 100, items := [] })
          = { cap := 100, items := ts.drop 1 } := by
        cases hfold : ts.foldl tapeInsert { cap := 100, items := [] } with
        | mk c i =>
          rw [hfold] at hitems hcap
          simp at hitems hcap
          rw [hlen] at hitems
          simp at hitems
          simp [hcap, hitems]
      rw [this]
    · rw [List.length_drop, hlen]
  · intro ts' tp hget
    rw [mget_insertTrades, hstart, Option.map_some'] at hget
    have h0 : (0 : Nat) < 100 := by norm_num
    have hl := tapeFold_len_le ts' { cap := 100, items := [] } h0 (by simp)
    have heq : List.foldl tapeInsert { cap := 100, items := [] } ts' = tp :=
      Option.some.inj hget
    rw [heq] at hl
    simpa using hl

/-- Witness for `C2_tape_bounded` at a concrete fresh state and 101
concrete trades. -/
theorem C2_tape_bounded_witness :
    (chTapeEx.channel = ChannelType.Tape
      ∧ mget chTapeEx appEmpty.tapes = none
      ∧ tradesEx.length = 101)
    ∧ mget chTapeEx
        ((tradesEx.foldl (fun s t => insertTrade s chTapeEx t)
          (startReq appEmpty chTapeEx (Except.ok wsEx)).1)).tapes
        = some { cap := 100, items := tradesEx.drop 1 } := by
  have hlen : tradesEx.length = 101 := by rfl
  refine ⟨⟨rfl, rfl, hlen⟩, ?_⟩
  exact ((C2_tape_bounded appEmpty chTapeEx (Except.ok wsEx) rfl rfl tradesEx hlen).1).1

/-! ## Claim C3 — book delta rule -/

/-- The observable effect of one delta step on a price map is exactly the
`deltaSpec` relation. -/
theorem deltaSpec_apply (m : List (Rat × Rat)) (p s : Rat) :
    deltaSpec m (if s = 0 then mremove p m else minsert p s m) p s := by
  intro q
  by_cases hq : q = p
  · subst hq
    by_cases hs : s = 0 <;> simp [hs, mget_mremove_self, mget_minsert_self]
  · by_cases hs : s = 0 <;>
      simp [hs, hq, mget_mremove_ne _ hq, mget_minsert_ne _ _ hq]

/-- C3: for a channel with an existing book, a single delta element
`(side, price, size)` — in the unified (GDAX), single-sided (Kraken
ask-only / bid-only) and dual-sided (Kraken both) shapes — removes the
level when size is zero (no-op when absent), and inserts or overwrites it
(never accumulates) when size is nonzero, leaving every other price and
the other side untouched. -/
theorem C3_delta_rule (st : App) (ch : Channel) (book : Book) (p s p2 s2 : Rat)
    (h : mget ch st.books = some book) :
    (∀ pid tm, ∃ b,
      mget ch (insertGdaxL2update st ch
          { product_id := pid, time := tm, changes := [(TradeSide.Buy, p, s)] }).books = some b
        ∧ deltaSpec book.bids b.bids p s ∧ b.asks = book.asks)
    ∧ (∀ pid tm, ∃ b,
      mget ch (insertGdaxL2update st ch
          { product_id := pid, time := tm, changes := [(TradeSide.Sell, p, s)] }).books = some b
        ∧ deltaSpec book.asks b.asks p s ∧ b.bids = book.bids)
    ∧ (∀ cid cn pr tst ut c, ∃ b,
      mget ch (insertKrakenUpdateAsk st ch
          { channel_id := cid,
            ask := { update := [{ price := p, volume := s, timestamp := tst,
                                  update_type := ut }], c := c },
            channel_name := cn, pair := pr }).books = some b
        ∧ deltaSpec book.asks b.asks p s ∧ b.bids = book.bids)
    ∧ (∀ cid cn pr tst ut c, ∃ b,
      mget ch (insertKrakenUpdateBid st ch
          { channel_id := cid,
            bid := { update := [{ price := p, volume := s, timestamp := tst,
                                  update_type := ut }], c := c },
            channel_name := cn, pair := pr }).books = some b
        ∧ deltaSpec book.bids b.bids p s ∧ b.asks = book.asks)
    ∧ (∀ cid cn pr tst ut c, ∃ b,
      mget ch (insertKrakenUpdateBoth st ch
          { channel_id := cid,
            ask := { update := [{ price := p2, volume := s2, timestamp := tst,
                                  update_type := ut }], c := c },
            bid := { update := [{ price := p, volume := s, timestamp := tst,
                                  update_type := ut }], c := c },
            channel_name := cn, pair := pr }).books = some b
        ∧ deltaSpec book.bids b.bids p s ∧ deltaSpec book.asks b.asks p2 s2) := by
  have hmod : ∀ f : Book → Book, mget ch (mmodify ch f st.books) = some (f book) := by
    intro f
    rw [mget_mmodify_self, h, Option.map_some']
  refine ⟨fun pid tm => ?_, fun pid tm => ?_, fun cid cn pr tst ut c => ?_,
    fun cid cn pr tst ut c => ?_, fun cid cn pr tst ut c => ?_⟩
  · by_cases hs : s = 0
    · refine ⟨{ book with bids := mremove p book.bids }, ?_, ?_, rfl⟩
      · simp only [insertGdaxL2update, List.foldl_cons, List.foldl_nil, applyGdaxChange]
        rw [if_pos hs]
        exact hmod _
      · have hds := deltaSpec_apply book.bids p s
        rwa [if_pos hs] at hds
    · refine ⟨{ book with bids := minsert p s book.bids }, ?_, ?_, rfl⟩
      · simp only [insertGdaxL2update, List.foldl_cons, List.foldl_nil, applyGdaxChange]
        rw [if_neg hs]
        exact hmod _
      · have hds := deltaSpec_apply book.bids p s
        rwa [if_neg hs] at hds
  · by_cases hs : s = 0
    · refine ⟨{ book with asks := mremove p book.asks }, ?_, ?_, rfl⟩
      · simp only [insertGdaxL2update, List.foldl_cons, List.foldl_nil, applyGdaxChange]
        rw [if_pos hs]
        exact hmod _
      · have hds := deltaSpec_apply book.asks p s
        rwa [if_pos hs] at hds
    · refine ⟨{ book with asks := minsert p s book.asks }, ?_, ?_, rfl⟩
      · simp only [insertGdaxL2update, List.foldl_cons, List.foldl_nil, applyGdaxChange]
        rw [if_neg hs]
        exact hmod _
      · have hds := deltaSpec_apply book.asks p s
        rwa [if_neg hs] at hds
  · by_cases hs : s = 0
    · refine ⟨{ book with asks := mremove p book.asks }, ?_, ?_, rfl⟩
      · simp only [insertKrakenUpdateAsk, List.foldl_cons, List.foldl_nil, applyKrakenAsk]
        rw [if_pos hs]
        exact hmod _
      · have hds := deltaSpec_apply book.asks p s
        rwa [if_pos hs] at hds
    · refine ⟨{ book with asks := minsert p s book.asks }, ?_, ?_, rfl⟩
      · simp only [insertKrakenUpdateAsk, List.foldl_cons, List.foldl_nil, applyKrakenAsk]
        rw [if_neg hs]
        exact hmod _
      · have hds := deltaSpec_apply book.asks p s
        rwa [if_neg hs] at hds
  · by_cases hs : s = 0
    · refine ⟨{ book with bids := mremove p book.bids }, ?_, ?_, rfl⟩
      · simp only [insertKrakenUpdateBid, List.foldl_cons, List.foldl_nil, applyKrakenBid]
        rw [if_pos hs]
        exact hmod _
      · have hds := deltaSpec_apply book.bids p s
        rwa [if_pos hs] at hds
    · refine ⟨{ book with bids := minsert p s book.bids }, ?_, ?_, rfl⟩
      · simp only [insertKrakenUpdateBid, List.foldl_cons, List.foldl_nil, applyKrakenBid]
        rw [if_neg hs]
        exact hmod _
      · have hds := deltaSpec_apply book.bids p s
        rwa [if_neg hs] at hds
  · -- dual-sided shape: bid step then ask step
    have hds1 := deltaSpec_apply book.bids p s
    have hds2 := deltaSpec_apply book.asks p2 s2
    refine ⟨{ book with
        bids := if s = 0 then mremove p book.bids else minsert p s book.bids,
        asks := if s2 = 0 then mremove p2 book.asks else minsert p2 s2 book.asks },
      ?_, hds1, hds2⟩
    simp only [insertKrakenUpdateBoth, List.foldl_cons, List.foldl_nil, applyKrakenBid,
      applyKrakenAsk]
    by_cases hs : s = 0 <;> by_cases hs2 : s2 = 0 <;>
      simp only [hs, hs2, if_pos, if_neg, if_true, if_false, reduceIte] <;>
      rw [mget_mmodify_self, hmod] <;>
      simp [hs, hs2]

/-- Witness for `C3_delta_rule`: a concrete state with a one-level book,
exercising the unified-shape zero-size removal. -/
theorem C3_delta_rule_witness :
    mget chBookEx stBookEx.books = some bookEx
      ∧ (∃ b, mget chBookEx (insertGdaxL2update stBookEx chBookEx
            { product_id := "BTC-USD", time := 0,
              changes := [(TradeSide.Buy, (1 : Rat), (0 : Rat))] }).books = some b
          ∧ deltaSpec bookEx.bids b.bids 1 0 ∧ b.asks = bookEx.asks) := by
  have h : mget chBookEx stBookEx.books = some bookEx := rfl
  exact ⟨h, ((C3_delta_rule stBookEx chBookEx bookEx 1 0 1 0 h).1) "BTC-USD" 0⟩

/-! ## Claim C4 — channel-kind mismatch -/

/-- C4: delivering a decoded trade-kind message (GDAX `Ticker`, Kraken
`Trade`, Hyperliquid `Trades`) on a Book-kind channel fails with
`ChannelResponseMismatch` and returns the state entirely unchanged. -/
theorem C4_channel_kind_mismatch (st : App) (ch : Channel)
    (h : ch.channel = ChannelType.Book) :
    (∀ t, handleWsResponseGdax st ch (GdaxResponse.ticker t)
        = (st, WsResult.err Error.ChannelResponseMismatch))
    ∧ (∀ m, handleWsResponseKraken st ch (KrakenResponse.trade m)
        = (st, WsResult.err Error.ChannelResponseMismatch))
    ∧ (∀ l, handleWsResponseHyperliquid st ch (HLResponse.trades l)
        = (st, WsResult.err Error.ChannelResponseMismatch)) := by
  have hne : ¬ ch.channel = ChannelType.Tape := by
    rw [h]
    exact fun hc => ChannelType.noConfusion hc
  refine ⟨fun t => ?_, fun m => ?_, fun l => ?_⟩
  · simp [handleWsResponseGdax, hne]
  · simp [handleWsResponseKraken, hne]
  · simp [handleWsResponseHyperliquid, hne]

/-- Witness for `C4_channel_kind_mismatch` on a concrete Book channel and
ticker. -/
theorem C4_channel_kind_mismatch_witness :
    chBookEx.channel = ChannelType.Book
      ∧ handleWsResponseGdax stBookEx chBookEx (GdaxResponse.ticker tickerEx)
        = (stBookEx, WsResult.err Error.ChannelResponseMismatch) := by
  exact ⟨rfl, (C4_channel_kind_mismatch stBookEx chBookEx rfl).1 tickerEx⟩

/-! ## Claim C5 — duplicate Start -/

/-- C5: on a channel with no existing entry, the first `Start` (with a
successful connection) succeeds and creates an empty tape of capacity 100
or an empty book per the channel kind; a second `Start` without an
intervening `Stop` fails with `ChannelAlreadySubscribed` and leaves the
state exactly as the first call left it. -/
theorem C5_duplicate_start (st : App) (ch : Channel) (conn2 : Except Error Websocket)
    (w : Websocket)
    (hT : ch.channel = ChannelType.Tape → mget ch st.tapes = none)
    (hB : ch.channel = ChannelType.Book → mget ch st.books = none) :
    (startReq st ch (Except.ok w)).2 = Except.ok ()
    ∧ (ch.channel = ChannelType.Tape →
        mget ch (startReq st ch (Except.ok w)).1.tapes = some { cap := 100, items := [] })
    ∧ (ch.channel = ChannelType.Book →
        mget ch (startReq st ch (Except.ok w)).1.books = some Book.new)
    ∧ startReq (startReq st ch (Except.ok w)).1 ch conn2
        = ((startReq st ch (Except.ok w)).1, Except.error Error.ChannelAlreadySubscribed) := by
  cases hk : ch.channel with
  | Tape =>
    have hf := hT hk
    have h1 : startReq st ch (Except.ok w)
        = ({ st with
             tapes := minsert ch ({ cap := 100, items := [] } : Tape) st.tapes,
             sockets := minsert ch w st.sockets }, Except.ok ()) := by
      unfold startReq
      rw [hk]
      simp [hf]
    rw [h1]
    refine ⟨rfl, fun _ => mget_minsert_self ch _ st.tapes,
      fun hc => ChannelType.noConfusion hc, ?_⟩
    unfold startReq
    rw [hk]
    simp [mget_minsert_self]
  | Book =>
    have hf := hB hk
    have h1 : startReq st ch (Except.ok w)
        = ({ st with
             books := minsert ch Book.new st.books,
             sockets := minsert ch w st.sockets }, Except.ok ()) := by
      unfold startReq
      rw [hk]
      simp [hf]
    rw [h1]
    refine ⟨rfl, fun hc => ChannelType.noConfusion hc,
      fun _ => mget_minsert_self ch _ st.books, ?_⟩
    unfold startReq
    rw [hk]
    simp [mget_minsert_self]

/-- Witness for `C5_duplicate_start` on a concrete fresh Tape channel. -/
theorem C5_duplicate_start_witness :
    (chTapeEx.channel = ChannelType.Tape → mget chTapeEx appEmpty.tapes = none)
      ∧ (chTapeEx.channel = ChannelType.Book → mget chTapeEx appEmpty.books = none)
      ∧ startReq (startReq appEmpty chTapeEx (Except.ok wsEx)).1 chTapeEx (Except.ok wsEx)
        = ((startReq appEmpty chTapeEx (Except.ok wsEx)).1,
           Except.error Error.ChannelAlreadySubscribed) := by
  refine ⟨fun _ => rfl, fun hc => ?_, ?_⟩
  · exact ChannelType.noConfusion hc
  · exact (C5_duplicate_start appEmpty chTapeEx (Except.ok wsEx) wsEx
      (fun _ => rfl) (fun hc => ChannelType.noConfusion hc)).2.2.2

/-! ## Claim C6 — Start non-rollback on connection failure -/

/-- C6: when the state setup of `Start` succeeds but the connection setup
fails with `e`, the error is returned, no socket record is registered
(the sockets map is exactly unchanged), and the just-created empty tape or
book entry remains in the state. -/
theorem C6_start_non_rollback (st : App) (ch : Channel) (e : Error)
    (hT : ch.channel = ChannelType.Tape → mget ch st.tapes = none)
    (hB : ch.channel = ChannelType.Book → mget ch st.books = none) :
    (startReq st ch (Except.error e)).2 = Except.error e
    ∧ (startReq st ch (Except.error e)).1.sockets = st.sockets
    ∧ (ch.channel = ChannelType.Tape →
        mget ch (startReq st ch (Except.error e)).1.tapes = some { cap := 100, items := [] })
    ∧ (ch.channel = ChannelType.Book →
        mget ch (startReq st ch (Except.error e)).1.books = some Book.new) := by
  cases hk : ch.channel with
  | Tape =>
    have hf := hT hk
    have h1 : startReq st ch (Except.error e)
        = ({ st with tapes := minsert ch { cap := 100, items := [] } st.tapes },
           Except.error e) := by
      unfold startReq
      rw [hk]
      simp [hf]
    rw [h1]
    exact ⟨rfl, rfl, fun _ => mget_minsert_self ch _ st.tapes,
      fun hc => ChannelType.noConfusion hc⟩
  | Book =>
    have hf := hB hk
    have h1 : startReq st ch (Except.error e)
        = ({ st with books := minsert ch Book.new st.books }, Except.error e) := by
      unfold startReq
      rw [hk]
      simp [hf]
    rw [h1]
    exact ⟨rfl, rfl, fun hc => ChannelType.noConfusion hc,
      fun _ => mget_minsert_self ch _ st.books⟩

/-- Witness for `C6_start_non_rollback` on a concrete fresh Tape channel
with a connection failure. -/
theorem C6_start_non_rollback_witness :
    (chTapeEx.channel = ChannelType.Tape → mget chTapeEx appEmpty.tapes = none)
      ∧ (startReq appEmpty chTapeEx (Except.error Error.Tungstenite)).2
          = Except.error Error.Tungstenite
      ∧ (startReq appEmpty chTapeEx (Except.error Error.Tungstenite)).1.sockets
          = appEmpty.sockets := by
  have h := C6_start_non_rollback appEmpty chTapeEx Error.Tungstenite
    (fun _ => rfl) (fun hc => ChannelType.noConfusion hc)
  exact ⟨fun _ => rfl, h.1, h.2.1⟩

/-! ## Claim C7 — Stop frame effect -/

/-- C7: `Stop` with no socket record fails with `SocketDoesNotExist` and
changes nothing; with a socket record it succeeds, removes exactly that
channel's socket record, and leaves every other channel's socket record
and the entire books and tapes maps unchanged. -/
theorem C7_stop_frame (st : App) (ch : Channel) :
    (mget ch st.sockets = none → stopReq st ch = (st, Except.error Error.SocketDoesNotExist))
    ∧ (∀ w, mget ch st.sockets = some w →
        (stopReq st ch).2 = Except.ok ()
        ∧ mget ch (stopReq st ch).1.sockets = none
        ∧ (∀ ch', ch' ≠ ch → mget ch' (stopReq st ch).1.sockets = mget ch' st.sockets)
        ∧ (stopReq st ch).1.books = st.books
        ∧ (stopReq st ch).1.tapes = st.tapes) := by
  constructor
  · intro hnone
    unfold stopReq
    rw [hnone]
  · intro w hsome
    have h1 : stopReq st ch = ({ st with sockets := mremove ch st.sockets }, Except.ok ()) := by
      unfold stopReq
      rw [hsome]
    rw [h1]
    exact ⟨rfl, mget_mremove_self ch st.sockets,
      fun ch' hne => mget_mremove_ne st.sockets hne, rfl, rfl⟩

/-- Witness for `C7_stop_frame` on a concrete state with a live socket. -/
theorem C7_stop_frame_witness :
    mget chTapeEx stSockEx.sockets = some wsEx
      ∧ (stopReq stSockEx chTapeEx).2 = Except.ok ()
      ∧ mget chTapeEx (stopReq stSockEx chTapeEx).1.sockets = none := by
  have h := (C7_stop_frame stSockEx chTapeEx).2 wsEx rfl
  exact ⟨rfl, h.1, h.2.1⟩

/-! ## Claim C10 — re-subscription is permanently blocked -/

/-- C10: after a successful `Start` (fresh channel, connection ok)
followed by a successful `Stop`, the channel has no socket record, yet
every subsequent `Start` — whatever its connection outcome — fails with
`ChannelAlreadySubscribed`, changes nothing, and in particular never
registers a new socket record: the duplicate check keys on the Book/Tape
entry, which `Stop` does not remove. -/
theorem C10_resubscription_blocked (st : App) (ch : Channel) (w : Websocket)
    (conn2 : Except Error Websocket)
    (hT : ch.channel = ChannelType.Tape → mget ch st.tapes = none)
    (hB : ch.channel = ChannelType.Book → mget ch st.books = none) :
    (stopReq (startReq st ch (Except.ok w)).1 ch).2 = Except.ok ()
    ∧ mget ch (stopReq (startReq st ch (Except.ok w)).1 ch).1.sockets = none
    ∧ startReq (stopReq (startReq st ch (Except.ok w)).1 ch).1 ch conn2
        = ((stopReq (startReq st ch (Except.ok w)).1 ch).1,
           Except.error Error.ChannelAlreadySubscribed)
    ∧ mget ch (startReq (stopReq (startReq st ch (Except.ok w)).1 ch).1 ch conn2).1.sockets
        = none := by
  cases hk : ch.channel with
  | Tape =>
    have hf := hT hk
    have h1 : startReq st ch (Except.ok w)
        = ({ st with
             tapes := minsert ch ({ cap := 100, items := [] } : Tape) st.tapes,
             sockets := minsert ch w st.sockets }, Except.ok ()) := by
      unfold startReq
      rw [hk]
      simp [hf]
    have hsock : mget ch (startReq st ch (Except.ok w)).1.sockets = some w := by
      rw [h1]
      exact mget_minsert_self ch w st.sockets
    have h2 : stopReq (startReq st ch (Except.ok w)).1 ch
        = ({ (startReq st ch (Except.ok w)).1 with
             sockets := mremove ch (startReq st ch (Except.ok w)).1.sockets },
           Except.ok ()) := by
      unfold stopReq
      rw [hsock]
    have htape : mget ch (stopReq (startReq st ch (Except.ok w)).1 ch).1.tapes
        = some { cap := 100, items := [] } := by
      rw [h2, h1]
      exact mget_minsert_self ch _ st.tapes
    have h3 : startReq (stopReq (startReq st ch (Except.ok w)).1 ch).1 ch conn2
        = ((stopReq (startReq st ch (Except.ok w)).1 ch).1,
           Except.error Error.ChannelAlreadySubscribed) :=
      startReq_dup_tape _ ch conn2 hk _ htape
    refine ⟨by rw [h2], ?_, h3, ?_⟩
    · rw [h2]
      exact mget_mremove_self ch _
    · rw [h3, h2]
      exact mget_mremove_self ch _
  | Book =>
    have hf := hB hk
    have h1 : startReq st ch (Except.ok w)
        = ({ st with
             books := minsert ch Book.new st.books,
             sockets := minsert ch w st.sockets }, Except.ok ()) := by
      unfold startReq
      rw [hk]
      simp [hf]
    have hsock : mget ch (startReq st ch (Except.ok w)).1.sockets = some w := by
      rw [h1]
      exact mget_minsert_self ch w st.sockets
    have h2 : stopReq (startReq st ch (Except.ok w)).1 ch
        = ({ (startReq st ch (Except.ok w)).1 with
             sockets := mremove ch (startReq st ch (Except.ok w)).1.sockets },
           Except.ok ()) := by
      unfold stopReq
      rw [hsock]
    have hbook : mget ch (stopReq (startReq st ch (Except.ok w)).1 ch).1.books
        = some Book.new := by
      rw [h2, h1]
      exact mget_minsert_self ch _ st.books
    have h3 : startReq (stopReq (startReq st ch (Except.ok w)).1 ch).1 ch conn2
        = ((stopReq (startReq st ch (Except.ok w)).1 ch).1,
           Except.error Error.ChannelAlreadySubscribed) :=
      startReq_dup_book _ ch conn2 hk _ hbook
    refine ⟨by rw [h2], ?_, h3, ?_⟩
    · rw [h2]
      exact mget_mremove_self ch _
    · rw [h3, h2]
      exact mget_mremove_self ch _

/-- Witness for `C10_resubscription_blocked` on a concrete fresh Tape
channel. -/
theorem C10_resubscription_blocked_witness :
    (chTapeEx.channel = ChannelType.Tape → mget chTapeEx appEmpty.tapes = none)
      ∧ startReq (stopReq (startReq appEmpty chTapeEx (Except.ok wsEx)).1 chTapeEx).1
          chTapeEx (Except.ok wsEx)
        = ((stopReq (startReq appEmpty chTapeEx (Except.ok wsEx)).1 chTapeEx).1,
           Except.error Error.ChannelAlreadySubscribed) := by
  have h := C10_resubscription_blocked appEmpty chTapeEx wsEx (Except.ok wsEx)
    (fun _ => rfl) (fun hc => ChannelType.noConfusion hc)
  exact ⟨fun _ => rfl, h.2.2.1⟩

/-! ## Digit-run and decimal round-trip lemmas -/

theorem charDigit_digitChar {d : Nat} (h : d < 10) : charDigit (digitChar d) = some d := by
  interval_cases d <;> rfl

theorem digitChar_ne_dot {d : Nat} (h : d < 10) : digitChar d ≠ '.' := by
  interval_cases d <;> decide

theorem digitChar_ne_neg {d : Nat} (h : d < 10) : digitChar d ≠ '-' := by
  interval_cases d <;> decide

theorem allDigits_map {l : List Nat} (h : ∀ d ∈ l, d < 10) :
    allDigits (l.map digitChar) = true := by
  induction l with
  | nil => rfl
  | cons d rest ih =>
    have h1 := charDigit_digitChar (h d (by simp))
    have h2 := ih fun x hx => h x (List.mem_cons_of_mem _ hx)
    simp only [allDigits, List.map_cons, List.all_cons, Bool.and_eq_true] at h2 ⊢
    exact ⟨by simp [h1], h2⟩

theorem digitsVal_map_go (l : List Nat) : ∀ a : Nat, (∀ d ∈ l, d < 10) →
    (l.map digitChar).foldl
        (fun acc c => acc.bind fun x => (charDigit c).map fun d => x * 10 + d) (some a)
      = some (l.foldl (fun x d => x * 10 + d) a) := by
  induction l with
  | nil => intro a _; rfl
  | cons d rest ih =>
    intro a h
    simp only [List.map_cons, List.foldl_cons, Option.bind_some,
      charDigit_digitChar (h d (by simp)), Option.map_some']
    exact ih (a * 10 + d) fun x hx => h x (List.mem_cons_of_mem _ hx)

theorem digitsVal_map {l : List Nat} (h : ∀ d ∈ l, d < 10) :
    digitsVal (l.map digitChar) = some (bigVal l) :=
  digitsVal_map_go l 0 h

theorem natDigitsRevGo_eq (f1 : Nat) : ∀ (f2 n : Nat), n ≤ f1 → n ≤ f2 →
    natDigitsRevGo f1 n = natDigitsRevGo f2 n := by
  induction f1 with
  | zero =>
    intro f2 n h1 _
    interval_cases n
    cases f2 <;> rfl
  | succ g ih =>
    intro f2 n h1 h2
    cases n with
    | zero => cases f2 <;> rfl
    | succ m =>
      cases f2 with
      | zero => omega
      | succ g2 =>
        have hd : (m + 1) / 10 ≤ g := by
          have := Nat.div_lt_self (Nat.succ_pos m) (show 1 < 10 by norm_num)
          omega
        have hd2 : (m + 1) / 10 ≤ g2 := by
          have := Nat.div_lt_self (Nat.succ_pos m) (show 1 < 10 by norm_num)
          omega
        show ((m + 1) % 10) :: natDigitsRevGo g ((m + 1) / 10)
            = ((m + 1) % 10) :: natDigitsRevGo g2 ((m + 1) / 10)
        rw [ih g2 ((m + 1) / 10) hd hd2]

theorem natDigitsRev_eq (n : Nat) :
    natDigitsRev n = if n = 0 then [] else (n % 10) :: natDigitsRev (n / 10) := by
  cases n with
  | zero => rfl
  | succ m =>
    rw [if_neg (Nat.succ_ne_zero m)]
    show natDigitsRevGo (m + 1) (m + 1) = ((m + 1) % 10) :: natDigitsRev ((m + 1) / 10)
    have hd : (m + 1) / 10 ≤ m := by
      have := Nat.div_lt_self (Nat.succ_pos m) (show 1 < 10 by norm_num)
      omega
    unfold natDigitsRev
    show ((m + 1) % 10) :: natDigitsRevGo m ((m + 1) / 10)
        = ((m + 1) % 10) :: natDigitsRevGo ((m + 1) / 10) ((m + 1) / 10)
    rw [natDigitsRevGo_eq m ((m + 1) / 10) ((m + 1) / 10) hd le_rfl]

theorem natDigitsRev_lt (n : Nat) : ∀ d ∈ natDigitsRev n, d < 10 := by
  induction n using Nat.strong_induction_on with
  | _ n ih =>
    cases n with
    | zero => intro d hd; simp [natDigitsRev, natDigitsRevGo] at hd
    | succ m =>
      rw [natDigitsRev_eq, if_neg (Nat.succ_ne_zero m)]
      intro d hd
      rcases List.mem_cons.mp hd with rfl | hd
      · exact Nat.mod_lt _ (by norm_num)
      · exact ih ((m + 1) / 10) (Nat.div_lt_self (Nat.succ_pos m) (by norm_num)) d hd

theorem natDigitsRev_foldr (n : Nat) :
    (natDigitsRev n).foldr (fun d a => a * 10 + d) 0 = n := by
  induction n using Nat.strong_induction_on with
  | _ n ih =>
    cases n with
    | zero => simp [natDigitsRev, natDigitsRevGo]
    | succ m =>
      rw [natDigitsRev_eq, if_neg (Nat.succ_ne_zero m), List.foldr_cons,
        ih ((m + 1) / 10) (Nat.div_lt_self (Nat.succ_pos m) (by norm_num))]
      omega

theorem bigVal_reverse (l : List Nat) :
    bigVal l.reverse = l.foldr (fun d a => a * 10 + d) 0 := by
  unfold bigVal
  rw [List.foldl_reverse]

theorem bigVal_natDigits (n : Nat) : bigVal (natDigitsRev n).reverse = n := by
  rw [bigVal_reverse, natDigitsRev_foldr]

theorem bigVal_replicate_append (k : Nat) (l : List Nat) :
    bigVal (List.replicate k 0 ++ l) = bigVal l := by
  induction k with
  | zero => rfl
  | succ j ih =>
    rw [List.replicate_succ, List.cons_append]
    unfold bigVal at ih ⊢
    rw [List.foldl_cons]
    simpa using ih

theorem bigVal_pad (l : List Nat) (k : Nat) : bigVal (padLeftZeros l k) = bigVal l := by
  unfold padLeftZeros
  exact bigVal_replicate_append _ _

theorem decPaddedDigits_lt (d : Dec96) : ∀ x ∈ decPaddedDigits d, x < 10 := by
  intro x hx
  unfold decPaddedDigits padLeftZeros at hx
  rcases List.mem_append.mp hx with hx | hx
  · rw [List.eq_of_mem_replicate hx]
    norm_num
  · exact natDigitsRev_lt _ x (List.mem_reverse.mp hx)

theorem decPaddedDigits_len (d : Dec96) : d.scale + 1 ≤ (decPaddedDigits d).length := by
  unfold decPaddedDigits padLeftZeros
  simp
  omega

theorem bigVal_decPaddedDigits (d : Dec96) : bigVal (decPaddedDigits d) = d.m.natAbs := by
  unfold decPaddedDigits
  rw [bigVal_pad, bigVal_natDigits]

theorem splitDotChars_no_dot {l : List Char} (h : '.' ∉ l) : splitDotChars l = (l, none) := by
  induction l with
  | nil => rfl
  | cons c rest ih =>
    have hc : ¬ c = '.' := fun hc => h (by simp [hc])
    have hr : '.' ∉ rest := fun hr => h (List.mem_cons_of_mem _ hr)
    simp [splitDotChars, hc, ih hr]

theorem splitDotChars_append {A : List Char} (B : List Char) (h : '.' ∉ A) :
    splitDotChars (A ++ '.' :: B) = (A, some B) := by
  induction A with
  | nil => simp [splitDotChars]
  | cons c rest ih =>
    have hc : ¬ c = '.' := fun hc => h (by simp [hc])
    have hr : '.' ∉ rest := fun hr => h (List.mem_cons_of_mem _ hr)
    simp [splitDotChars, hc, ih hr]

theorem splitSign_digit {c : Char} (rest : List Char) (h : c ≠ '-') :
    splitSign (c :: rest) = (false, c :: rest) := by
  simp [splitSign, h]

theorem splitSign_neg (rest : List Char) : splitSign ('-' :: rest) = (true, rest) := by
  simp [splitSign]

/-- Parsing a printed decimal: sign, big-endian digit run, optional
fractional digit run. -/
theorem parseDec96_build (sgn : Bool) (ip fp : List Nat) (hip : ip ≠ [])
    (hiplt : ∀ x ∈ ip, x < 10) (hfplt : ∀ x ∈ fp, x < 10) (hfps : fp.length ≤ 28)
    (hval : bigVal (ip ++ fp) < 2 ^ 96) :
    parseDec96 (String.mk ((if sgn then ['-'] else []) ++ ip.map digitChar ++
        (if fp = [] then [] else '.' :: fp.map digitChar)))
      = some { m := if sgn then -(bigVal (ip ++ fp) : Int) else (bigVal (ip ++ fp) : Int),
               scale := fp.length } := by
  have hnodot : '.' ∉ ip.map digitChar := by
    intro hdot
    obtain ⟨x, hx, hxe⟩ := List.mem_map.mp hdot
    exact digitChar_ne_dot (hiplt x hx) hxe
  have hcore : splitDotChars (ip.map digitChar ++
        (if fp = [] then [] else '.' :: fp.map digitChar))
      = (ip.map digitChar, if fp = [] then none else some (fp.map digitChar)) := by
    by_cases hfp : fp = []
    · rw [if_pos hfp, if_pos hfp, List.append_nil]
      exact splitDotChars_no_dot hnodot
    · rw [if_neg hfp, if_neg hfp]
      exact splitDotChars_append _ hnodot
  have hsign : splitSign ((if sgn then ['-'] else []) ++ ip.map digitChar ++
        (if fp = [] then [] else '.' :: fp.map digitChar))
      = (sgn, ip.map digitChar ++ (if fp = [] then [] else '.' :: fp.map digitChar)) := by
    cases sgn with
    | true =>
      rw [if_pos rfl, List.singleton_append, List.cons_append]
      exact splitSign_neg _
    | false =>
      rw [if_neg (by simp), List.nil_append]
      obtain ⟨c, ip', hip'⟩ := List.exists_cons_of_ne_nil hip
      rw [hip', List.map_cons, List.cons_append]
      have hc : digitChar c ≠ '-' := digitChar_ne_neg (hiplt c (by simp [hip']))
      rw [splitSign_digit _ hc]
  have hipmap_ne : ip.map digitChar ≠ [] := by
    simpa using hip
  have hfpchars : ((if fp = [] then none else some (fp.map digitChar)).getD [])
      = fp.map digitChar := by
    by_cases hfp : fp = []
    · simp [hfp]
    · simp [hfp]
  have hcond2 : (if fp = [] then none else some (fp.map digitChar)) ≠ some [] := by
    by_cases hfp : fp = []
    · simp [hfp]
    · simp [hfp]
  have hdigits : digitsVal (ip.map digitChar ++ fp.map digitChar)
      = some (bigVal (ip ++ fp)) := by
    rw [← List.map_append]
    refine digitsVal_map ?_
    intro x hx
    rcases List.mem_append.mp hx with hx | hx
    · exact hiplt x hx
    · exact hfplt x hx
  have hfplen : ((if fp = [] then none else some (fp.map digitChar)).getD []).length
      = fp.length := by
    rw [hfpchars, List.length_map]
  simp only [parseDec96, hsign, hcore, hfpchars, hcond2, hipmap_ne,
    allDigits_map hiplt, allDigits_map hfplt, hfplen, hfps, ne_eq,
    not_false_eq_true, and_true, true_and, if_true, reduceIte, hdigits,
    List.length_map]
  simp [hval]
  exact lt_of_lt_of_le hval (by norm_num)

/-- Printing a representable decimal and re-parsing it recovers exactly
the same mantissa and scale: the decimal round-trip loses neither the
numeric value nor the scale (trailing zeros). -/
theorem parseDec96_toString (d : Dec96) (hm : d.m.natAbs < 2 ^ 96) (hs : d.scale ≤ 28) :
    parseDec96 (dec96ToString d) = some d := by
  have hlen := decPaddedDigits_len d
  have hdslt := decPaddedDigits_lt d
  set ds := decPaddedDigits d with hds
  set ip := ds.take (ds.length - d.scale) with hip
  set fp := ds.drop (ds.length - d.scale) with hfp
  have hip_len : ip.length = ds.length - d.scale := by
    rw [hip, List.length_take]
    omega
  have hfp_len : fp.length = d.scale := by
    rw [hfp, List.length_drop]
    omega
  have hip_ne : ip ≠ [] := by
    apply List.ne_nil_of_length_pos
    omega
  have hiplt : ∀ x ∈ ip, x < 10 := fun x hx => hdslt x (List.mem_of_mem_take hx)
  have hfplt : ∀ x ∈ fp, x < 10 := fun x hx => hdslt x (List.mem_of_mem_drop hx)
  have hval : bigVal (ip ++ fp) < 2 ^ 96 := by
    rw [hip, hfp, List.take_append_drop, hds, bigVal_decPaddedDigits]
    exact hm
  have hfps : fp.length ≤ 28 := by
    rw [hfp_len]
    exact hs
  have hbuild := parseDec96_build (decide (d.m < 0)) ip fp hip_ne hiplt hfplt hfps hval
  have hstr : dec96ToString d = String.mk ((if decide (d.m < 0) = true then ['-'] else [])
      ++ ip.map digitChar ++ (if fp = [] then [] else '.' :: fp.map digitChar)) := by
    unfold dec96ToString
    rw [← hds, ← hip, ← hfp]
    have h1 : (if decide (d.m < 0) = true then (['-'] : List Char) else [])
        = (if d.m < 0 then ['-'] else []) := by
      simp [decide_eq_true_eq]
    have h2 : (if fp = [] then ([] : List Char) else '.' :: fp.map digitChar)
        = (if d.scale = 0 then [] else '.' :: fp.map digitChar) := by
      apply if_congr _ rfl rfl
      rw [← hfp_len]
      exact ⟨fun h => by rw [h]; rfl, fun h => List.length_eq_zero.mp h⟩
    rw [h1, h2]
  rw [hstr, hbuild]
  have hbv : bigVal (ip ++ fp) = d.m.natAbs := by
    rw [hip, hfp, List.take_append_drop, hds, bigVal_decPaddedDigits]
  rw [hbv]
  obtain ⟨m, sc⟩ := d
  simp only [Option.some.injEq, Dec96.mk.injEq]
  constructor
  · simp only [decide_eq_true_eq]
    by_cases hneg : m < 0
    · rw [if_pos hneg]
      omega
    · rw [if_neg hneg]
      omega
  · exact hfp_len

/-- Every decimal produced by the parser is representable: mantissa below
`2^96` and scale at most 28. -/
theorem parseDec96_valid {s : String} {d : Dec96} (h : parseDec96 s = some d) :
    d.m.natAbs < 2 ^ 96 ∧ d.scale ≤ 28 := by
  simp only [parseDec96] at h
  split at h
  · rename_i hcond
    cases hdv : digitsVal ((splitDotChars (splitSign s.data).2).1 ++
        ((splitDotChars (splitSign s.data).2).2.getD [])) with
    | none =>
      rw [hdv] at h
      simp at h
    | some n =>
      rw [hdv] at h
      rw [Option.some_bind] at h
      split at h
      · rename_i hlt
        have hd := Option.some.inj h
        subst hd
        refine ⟨?_, hcond.2.2.2.2⟩
        by_cases hsg : (splitSign s.data).1 = true
        · simp only [hsg, reduceIte, Int.natAbs_neg, Int.natAbs_ofNat]
          exact hlt
        · simp only [hsg, reduceIte, Int.natAbs_ofNat]
          exact hlt
      · exact absurd h (by simp)
  · exact absurd h (by simp)

/-- `TryFrom<WsTrade>` inversion: a successful conversion carries the
`to_string` of the wire decimals. -/
theorem tradeOfWsTrade_fields {t : WsTrade} {tr : Trade}
    (h : tradeOfWsTrade t = some tr) :
    tr.price = dec96ToString t.price ∧ tr.size = dec96ToString t.volume := by
  unfold tradeOfWsTrade at h
  cases hmul : dec96MulNanos t.time with
  | none =>
    rw [hmul] at h
    simp at h
  | some p =>
    rw [hmul] at h
    rw [Option.some_bind] at h
    cases htr : dec96TruncToI64 p with
    | none =>
      rw [htr] at h
      simp at h
    | some n =>
      rw [htr] at h
      simp only [Option.map_some'] at h
      have := Option.some.inj h
      subst this
      exact ⟨rfl, rfl⟩

/-- serde inversion for one Kraken wire trade. -/
theorem parseWsTrade_fields {r : RawWsTrade} {t : WsTrade}
    (h : parseWsTrade r = some t) :
    parseDec96 r.price = some t.price ∧ parseDec96 r.volume = some t.volume := by
  unfold parseWsTrade at h
  cases hp : parseDec96 r.price with
  | none =>
    rw [hp] at h
    simp at h
  | some p =>
    rw [hp] at h
    rw [Option.some_bind] at h
    cases hv : parseDec96 r.volume with
    | none =>
      rw [hv] at h
      simp at h
    | some v =>
      rw [hv] at h
      rw [Option.some_bind] at h
      cases ht : parseDec96 r.time with
      | none =>
        rw [ht] at h
        simp at h
      | some tt =>
        rw [ht] at h
        simp only [Option.map_some'] at h
        have := Option.some.inj h
        subst this
        exact ⟨rfl, rfl⟩

/-! ## Claim C8 — native-text preservation -/

/-- C8 as stated is false on the code: Kraken price text passes through a
decimal round-trip (`Decimal` → `to_string`), which reformats
non-canonical wire text — the deserializable wire price `"05.0"` comes out
as `"5.0"`, not character-for-character equal. -/
theorem C8_counterexample :
    ((parseWsTrade { price := "05.0", volume := "1.17100399",
                     time := "1686499924.936167", side := "b", order_type := "l",
                     misc := "" }).bind tradeOfWsTrade).map Trade.price = some "5.0"
      ∧ ("5.0" : String) ≠ "05.0" := by
  exact ⟨rfl, by decide⟩

/-- C8 (amended): GDAX and Hyperliquid trades preserve the wire price and
size texts exactly (they are copied verbatim); Kraken trades preserve the
decimal value and scale exactly — the emitted text re-parses to precisely
the wire's mantissa and scale, so trailing zeros survive — and reproduce
canonical wire texts such as `"25782.90000"` character for character,
though non-canonical texts (e.g. a leading zero) are reformatted (see the
counterexample). -/
theorem C8_native_text :
    (∀ t : Ticker, (tradeOfTicker t).price = t.price ∧ (tradeOfTicker t).size = t.size)
    ∧ (∀ (t : HLTrade) (tr : Trade), tradeOfHLTrade t = some tr →
        tr.price = t.px ∧ tr.size = t.sz)
    ∧ (∀ (r : RawWsTrade) (t : WsTrade) (tr : Trade),
        parseWsTrade r = some t → tradeOfWsTrade t = some tr →
        parseDec96 tr.price = some t.price ∧ parseDec96 tr.size = some t.volume)
    ∧ ((parseWsTrade { price := "25782.90000", volume := "1.17100399",
                       time := "1686499924.936167", side := "b", order_type := "l",
                       misc := "" }).bind tradeOfWsTrade).map Trade.price
        = some "25782.90000" := by
  refine ⟨fun t => ⟨rfl, rfl⟩, fun t tr h => ?_, fun r t tr hPt hTr => ?_, by rfl⟩
  · unfold tradeOfHLTrade at h
    split at h
    · have := Option.some.inj h
      subst this
      exact ⟨rfl, rfl⟩
    · exact absurd h (by simp)
  · obtain ⟨hp, hv⟩ := parseWsTrade_fields hPt
    obtain ⟨htrp, htrs⟩ := tradeOfWsTrade_fields hTr
    have hval1 := parseDec96_valid hp
    have hval2 := parseDec96_valid hv
    rw [htrp, htrs]
    exact ⟨parseDec96_toString _ hval1.1 hval1.2, parseDec96_toString _ hval2.1 hval2.2⟩

/-- Witness for `C8_native_text`: the concrete Kraken trade `wstEx`
(price text `"0.100"`, carrying a trailing zero) converts to
`trKrakenEx`, whose price and size texts re-parse to exactly the original
mantissa and scale. -/
theorem C8_native_text_witness :
    parseWsTrade { price := "0.100", volume := "2.0", time := "1685895944.62050",
                   side := "b", order_type := "l", misc := "" } = some wstEx
    ∧ tradeOfWsTrade wstEx = some trKrakenEx
    ∧ parseDec96 trKrakenEx.price = some wstEx.price
    ∧ parseDec96 trKrakenEx.size = some wstEx.volume := by
  have h1 : parseWsTrade { price := "0.100", volume := "2.0", time := "1685895944.62050",
                           side := "b", order_type := "l", misc := "" } = some wstEx := by
    rfl
  have h2 : tradeOfWsTrade wstEx = some trKrakenEx := by rfl
  have h3 := C8_native_text.2.2.1 _ _ _ h1 h2
  exact ⟨h1, h2, h3.1, h3.2⟩

/-! ## Claim C9 — cross-exchange time normalization -/

/-- C9: each exchange's trade conversion normalizes the exchange-native
time encoding to the same UTC instant to within one millisecond (in fact
exactly, under the stated representability bounds): GDAX copies the
chrono-parsed ISO-8601 instant unchanged; Hyperliquid's epoch
milliseconds become exactly `time·10^6` nanoseconds; Kraken's fractional
epoch seconds (multiplied by `10^9` and truncated to `i64` nanoseconds)
land within one millisecond of the exact instant whenever the decimal
multiply is exact, the scale is at most 9 and the result fits `i64`. -/
theorem C9_time_normalization :
    (∀ t : Ticker, (tradeOfTicker t).dt = t.time)
    ∧ (∀ (t : HLTrade) (tr : Trade), tradeOfHLTrade t = some tr →
        |(tr.dt : Rat) - (t.time : Rat) * 1000000| < 1000000)
    ∧ (∀ t : WsTrade, t.time.scale ≤ 9 →
        (t.time.m * 1000000000).natAbs < 2 ^ 96 →
        (t.time.m * 10 ^ (9 - t.time.scale)).natAbs < 2 ^ 63 →
        ∃ tr, tradeOfWsTrade t = some tr
          ∧ |(tr.dt : Rat) - t.time.val * 1000000000| < 1000000) := by
  refine ⟨fun t => rfl, fun t tr h => ?_, fun t hs h96 h63 => ?_⟩
  · unfold tradeOfHLTrade at h
    split at h
    · have := Option.some.inj h
      subst this
      have hv : (((t.time * 1000000 : Int) : Rat)) = (t.time : Rat) * 1000000 := by
        push_cast
        ring
      dsimp only
      rw [hv, sub_self, abs_zero]
      norm_num
    · exact absurd h (by simp)
  · have hmul : dec96MulNanos t.time
        = some { m := t.time.m * 1000000000, scale := t.time.scale } := by
      unfold dec96MulNanos
      rw [if_pos h96]
    have hq : (t.time.m * 1000000000).tdiv ((10 : Int) ^ t.time.scale)
        = t.time.m * 10 ^ (9 - t.time.scale) := by
      have hsplit : (1000000000 : Int) = 10 ^ (9 - t.time.scale) * 10 ^ t.time.scale := by
        rw [← pow_add]
        have h9 : 9 - t.time.scale + t.time.scale = 9 := by omega
        rw [h9]
        norm_num
      rw [hsplit, ← mul_assoc]
      exact Int.mul_tdiv_cancel _ (by positivity)
    have hrange : -(2 ^ 63) ≤ t.time.m * 10 ^ (9 - t.time.scale)
        ∧ t.time.m * 10 ^ (9 - t.time.scale) < 2 ^ 63 := by
      have hcast : ((t.time.m * 10 ^ (9 - t.time.scale)).natAbs : Int) < 2 ^ 63 := by
        exact_mod_cast h63
      omega
    have htr : dec96TruncToI64 { m := t.time.m * 1000000000, scale := t.time.scale }
        = some (t.time.m * 10 ^ (9 - t.time.scale)) := by
      unfold dec96TruncToI64
      simp only [hq]
      rw [if_pos hrange]
    refine ⟨{ price := dec96ToString t.price, size := dec96ToString t.volume,
              dt := t.time.m * 10 ^ (9 - t.time.scale), exchange := Exchange.Kraken }, ?_, ?_⟩
    · unfold tradeOfWsTrade
      rw [hmul, Option.some_bind, htr, Option.map_some']
    · have hv : ((t.time.m * 10 ^ (9 - t.time.scale) : Int) : Rat)
          = t.time.val * 1000000000 := by
        unfold Dec96.val
        push_cast
        rw [div_mul_eq_mul_div, eq_comm, div_eq_iff (by positivity), mul_assoc, ← pow_add]
        have h9 : 9 - t.time.scale + t.time.scale = 9 := by omega
        rw [h9]
        norm_num
      dsimp only
      rw [hv, sub_self, abs_zero]
      norm_num

/-- Witness for `C9_time_normalization`: the concrete Kraken time
`1685895944.62050` s (scale 5) converts exactly to
`1685895944620500000` ns. -/
theorem C9_time_normalization_witness :
    wstEx.time.scale ≤ 9
      ∧ (wstEx.time.m * 1000000000).natAbs < 2 ^ 96
      ∧ (wstEx.time.m * 10 ^ (9 - wstEx.time.scale)).natAbs < 2 ^ 63
      ∧ ∃ tr, tradeOfWsTrade wstEx = some tr
          ∧ |(tr.dt : Rat) - wstEx.time.val * 1000000000| < 1000000 := by
  refine ⟨by norm_num [wstEx], by norm_num [wstEx], by norm_num [wstEx], ?_⟩
  exact C9_time_normalization.2.2 wstEx (by norm_num [wstEx]) (by norm_num [wstEx])
    (by norm_num [wstEx])
